import Mathlib

/-!
# A shallow embedding of the Audacious playlist-manager core

This file models `src/libaudcore/playlist.cc` of the Audacious audio player:
the playlist registry with its ID / weak-handle scheme, the batched update
bus, the scan scheduler, the playback-thread entry points and the on-disk
state save/load, together with theorems about their behaviour.

Conventions:
* C `int` fields become `Int`; list indices that are known non-negative
  become `Nat`.
* The process-wide mutable state (the statics of `playlist.cc`) is a single
  record `GS`; every C function becomes a state transformer `GS → GS` (or
  `GS → α × GS` for functions returning a value).
* Calls to external collaborators (scanner backend, playback engine, hook
  bus, art cache) are recorded in an event log `GS.log`.
* `PlaylistData` internals live in `playlist-data.cc`, which is not part of
  the sources; the few of its operations the core needs are modelled from
  the specification and are marked `Modelled from the spec:` in their doc
  comments.
* Loops in the C source that are bounded by a data-structure size are
  translated with an explicit fuel argument that dominates that size, so
  that every definition is executable by the kernel.
-/

/-- `Playlist::UpdateLevel` (`NoUpdate < Metadata < Structure`). -/
inductive UpdateLevel
  | NoUpdate
  | Metadata
  | Structure
  deriving DecidableEq, Repr

/-- The numeric value of the C enum, used for `aud::max` comparisons. -/
def UpdateLevel.toNat : UpdateLevel → Nat
  | .NoUpdate => 0
  | .Metadata => 1
  | .Structure => 2

/-- `aud::max` on `Playlist::UpdateLevel` values (playlist.cc:224). -/
def levelMax (a b : UpdateLevel) : UpdateLevel :=
  if a.toNat ≤ b.toNat then b else a

/-- `PlaylistData::scan_status` values. -/
inductive ScanStatus
  | NotScanning
  | ScanActive
  | ScanEnding
  deriving DecidableEq, Repr

/-- The resume-state values written to the state file (playlist.cc:48-52). -/
def ResumeStop : Nat := 0

def ResumePlay : Nat := 1

def ResumePause : Nat := 2

/-- `PlaylistData::DelayedUpdate` flag bit (playlist-data.h); the exact bit
value is irrelevant, only `flags & DelayedUpdate` is ever tested. -/
def DelayedUpdateFlag : Nat := 1

/-- `SCAN_TUPLE`, `SCAN_IMAGE`, `SCAN_FILE` request bits (scanner.h). -/
def SCAN_TUPLE : Nat := 1

def SCAN_IMAGE : Nat := 2

def SCAN_FILE : Nat := 4

/-- `SCAN_THREADS`: bound on concurrent outstanding scan requests.
Modelled from the spec: an implementation constant, e.g. 2. -/
def SCAN_THREADS : Nat := 2

/-- A tag tuple.  `Tuple` itself lives outside the core; the model keeps the
validity bit, the `Tuple::StartTime` field (`none` when the field is unset,
`some v` when it was set to `v` — `Tuple::is_set` tests presence, not the
value) and an opaque stand-in for the remaining tag data. -/
structure TupleD where
  valid : Bool
  startTime : Option Int
  content : Nat
  deriving DecidableEq, Repr

/-- The empty tuple `Tuple ()`. -/
def emptyTuple : TupleD := { valid := false, startTime := none, content := 0 }

/-- One playlist entry, with the fields the core reads: filename, decoder
handle (`none` = null pointer), tuple. -/
structure EntryD where
  filename : String
  decoder : Option Nat
  tuple : TupleD
  deriving DecidableEq, Repr

/-- A per-playlist pending-update record: accumulated level and affected
range `[at, at+count)`.  Level `NoUpdate` means the record is empty. -/
structure URec where
  level : UpdateLevel
  lo : Nat
  count : Nat
  deriving DecidableEq, Repr

/-- The cleared update record. -/
def noURec : URec := { level := .NoUpdate, lo := 0, count := 0 }

/-- Merge a queued update into a pending record.  Modelled from the spec:
the record "accumulates the level (`None < Metadata < Structure`) and the
affected entry range". -/
def mergeURec (u : URec) (level : UpdateLevel) (lo count : Nat) : URec :=
  if u.level = .NoUpdate then
    { level := level, lo := lo, count := count }
  else
    let newLo := min u.lo lo
    { level := levelMax u.level level
      lo := newLo
      count := max (u.lo + u.count) (lo + count) - newLo }

/-- One playlist: the embedded `Playlist::ID` record fields (`stamp`,
`index`; `data == null` is represented by the playlist being absent from
`GS.playlists`) together with the `PlaylistData` fields the core touches. -/
structure PData where
  stamp : Nat
  index : Int
  title : String
  filename : Option String
  entries : List EntryD
  position : Int
  focus : Int
  resumeTime : Int
  modified : Bool
  scanStatus : ScanStatus
  pendingUpdate : URec
  lastUpdate : URec
  queue : List Nat
  deriving DecidableEq, Repr

/-- A fresh `PlaylistData (id, _("New Playlist"))`.  Modelled from the spec:
a fresh playlist is an untitled empty default (title "New Playlist", no
entries, no position). -/
def newPData (stamp : Nat) : PData :=
  { stamp := stamp, index := -1, title := "New Playlist", filename := none
    entries := [], position := -1, focus := -1, resumeTime := 0
    modified := false, scanStatus := .NotScanning
    pendingUpdate := noURec, lastUpdate := noURec, queue := [] }

/-- A `ScanItem` (playlist.cc:133-147).  The playlist is referenced by its
stamp, the entry by its index, the request by its id. -/
structure ScanItem where
  playlist : Nat
  entry : Nat
  request : Nat
  reqFlags : Nat
  for_playback : Bool
  handled_by_playback : Bool
  deriving DecidableEq, Repr

/-- The two scheduling modes of `queued_update` (`QueuedFunc`): a 250 ms
timer (`queue (250, update, nullptr)`) or next event-loop turn
(`queue (update, nullptr)`). -/
inductive TimerKind
  | delayed250
  | immediate
  deriving DecidableEq, Repr

/-- Calls made to external collaborators, recorded in order. -/
inductive Event
  | scannerRequest (request : Nat)
  | playbackPlay (seek : Int) (pause : Bool)
  | playbackStop
  | artClearCurrent
  | playbackSetInfo (pos : Int) (tuple : TupleD)
  | hookCall (name : String)
  | eventCancel (name : String)
  | eventQueued (name : String)
  | condBroadcast
  deriving DecidableEq, Repr

/-- The process-wide state: the statics of playlist.cc.  `usedStamps` is the
key set of `id_table` (records are never freed, so it only grows);
`playlists` is the Registry, each element carrying its live ID record;
`active`/`playing` hold the stamp of the referenced ID record. -/
structure GS where
  usedStamps : List Nat
  nextStamp : Nat
  playlists : List PData
  active : Option Nat
  playing : Option Nat
  resumePlaylist : Int
  resumePaused : Bool
  updateLevel : UpdateLevel
  updateDelayed : Bool
  timer : Option TimerKind
  scanEnabled : Bool
  scanPlaylist : Nat
  scanRow : Nat
  scanList : List ScanItem
  nextRequest : Nat
  currentSerial : Option Int
  log : List Event
  deriving DecidableEq, Repr

/-! ## List helpers

Small recursive helpers, used instead of library functions so that every
lemma about them is proved here. -/

/-- Apply `f` to the element at index `i` (no-op when out of range). -/
def modifyIdx (f : α → α) : Nat → List α → List α
  | _, [] => []
  | 0, a :: as => f a :: as
  | n + 1, a :: as => a :: modifyIdx f n as

/-- Insert `a` so that it ends up at index `i` (appends when `i ≥ length`;
callers clamp `i` first, as the C `Index::insert` requires `i ≤ length`). -/
def insertAtIdx (a : α) : Nat → List α → List α
  | 0, l => a :: l
  | _ + 1, [] => [a]
  | n + 1, x :: xs => x :: insertAtIdx a n xs

/-- Remove the element at index `i` (no-op when out of range):
`Index::remove (i, 1)`. -/
def removeAtIdx : Nat → List α → List α
  | _, [] => []
  | 0, _ :: as => as
  | n + 1, a :: as => a :: removeAtIdx n as

/-- Concatenated map. -/
def catMap (f : α → List β) : List α → List β
  | [] => []
  | a :: as => f a ++ catMap f as

theorem length_modifyIdx (f : α → α) (n : Nat) (l : List α) :
    (modifyIdx f n l).length = l.length := by
  induction l generalizing n with
  | nil => cases n <;> rfl
  | cons a as ih => cases n with
    | zero => rfl
    | succ m => simpa [modifyIdx] using ih m

theorem getElem_modifyIdx (f : α → α) (n : Nat) (l : List α) (i : Nat)
    (h : i < (modifyIdx f n l).length) (h' : i < l.length) :
    (modifyIdx f n l)[i] = if i = n then f l[i] else l[i] := by
  induction l generalizing n i with
  | nil => simp at h'
  | cons a as ih =>
    cases n with
    | zero =>
      cases i with
      | zero => simp [modifyIdx]
      | succ j => simp [modifyIdx]
    | succ m =>
      cases i with
      | zero => simp [modifyIdx]
      | succ j =>
        have hj : j < (modifyIdx f m as).length := by
          simpa [modifyIdx] using h
        have hj' : j < as.length := by simpa using h'
        simpa [modifyIdx, Nat.succ_inj] using ih m j hj hj'

theorem length_insertAtIdx (a : α) (n : Nat) (l : List α) :
    (insertAtIdx a n l).length = l.length + 1 := by
  induction l generalizing n with
  | nil => cases n <;> rfl
  | cons x xs ih => cases n with
    | zero => rfl
    | succ m => simpa [insertAtIdx] using ih m

theorem length_removeAtIdx (n : Nat) (l : List α) (h : n < l.length) :
    (removeAtIdx n l).length = l.length - 1 := by
  induction l generalizing n with
  | nil => simp at h
  | cons a as ih =>
    cases n with
    | zero => simp [removeAtIdx]
    | succ m =>
      have hm : m < as.length := by simpa using h
      simp [removeAtIdx, ih m hm]
      omega

theorem length_catMap (f : α → List β) (l : List α) :
    (catMap f l).length = (l.map fun a => (f a).length).sum := by
  induction l with
  | nil => rfl
  | cons a as ih => simp [catMap, ih]

theorem getElem_insertAtIdx_lt (a : α) (n : Nat) (l : List α) (i : Nat)
    (h : i < (insertAtIdx a n l).length) (h' : i < l.length) (hin : i < n) :
    (insertAtIdx a n l)[i] = l[i] := by
  induction l generalizing n i with
  | nil => simp at h'
  | cons x xs ih =>
    cases n with
    | zero => omega
    | succ m =>
      cases i with
      | zero => simp [insertAtIdx]
      | succ j =>
        have hj : j < (insertAtIdx a m xs).length := by
          simpa [insertAtIdx] using h
        have hj' : j < xs.length := by simpa using h'
        simpa [insertAtIdx] using ih m j hj hj' (by omega)

theorem getElem_insertAtIdx_ge (a : α) (n : Nat) (l : List α) (i : Nat)
    (hn : n ≤ l.length) (h : i + 1 < (insertAtIdx a n l).length)
    (h' : i < l.length) (hin : n ≤ i) :
    (insertAtIdx a n l)[i + 1] = l[i] := by
  induction l generalizing n i with
  | nil => simp at h'
  | cons x xs ih =>
    cases n with
    | zero =>
      simp [insertAtIdx]
    | succ m =>
      cases i with
      | zero => omega
      | succ j =>
        have hj : j + 1 < (insertAtIdx a m xs).length := by
          simpa [insertAtIdx] using h
        have hj' : j < xs.length := by simpa using h'
        simpa [insertAtIdx] using ih m j (by simpa using hn) hj hj' (by omega)

theorem getElem_removeAtIdx_lt (n : Nat) (l : List α) (i : Nat)
    (h : i < (removeAtIdx n l).length) (h' : i < l.length) (hin : i < n) :
    (removeAtIdx n l)[i] = l[i] := by
  induction l generalizing n i with
  | nil => simp at h'
  | cons x xs ih =>
    cases n with
    | zero => omega
    | succ m =>
      cases i with
      | zero => simp [removeAtIdx]
      | succ j =>
        have hj : j < (removeAtIdx m xs).length := by
          simpa [removeAtIdx] using h
        have hj' : j < xs.length := by simpa using h'
        simpa [removeAtIdx] using ih m j hj hj' (by omega)

theorem getElem_removeAtIdx_ge (n : Nat) (l : List α) (i : Nat)
    (h : i < (removeAtIdx n l).length) (h' : i + 1 < l.length) (hin : n ≤ i) :
    (removeAtIdx n l)[i] = l[i + 1] := by
  induction l generalizing n i with
  | nil => simp at h'
  | cons x xs ih =>
    cases n with
    | zero =>
      simp [removeAtIdx]
    | succ m =>
      cases i with
      | zero => omega
      | succ j =>
        have hj : j < (removeAtIdx m xs).length := by
          simpa [removeAtIdx] using h
        have hj' : j + 1 < xs.length := by simpa using h'
        simpa [removeAtIdx] using ih m j hj hj' (by omega)

theorem map_modifyIdx (g : α → β) (f : α → α) (n : Nat) (l : List α)
    (hf : ∀ a, g (f a) = g a) :
    (modifyIdx f n l).map g = l.map g := by
  induction l generalizing n with
  | nil => cases n <;> rfl
  | cons a as ih => cases n with
    | zero => simp [modifyIdx, hf]
    | succ m => simp [modifyIdx, ih m]

theorem map_insertAtIdx (g : α → β) (a : α) (n : Nat) (l : List α) :
    (insertAtIdx a n l).map g = insertAtIdx (g a) n (l.map g) := by
  induction l generalizing n with
  | nil => cases n <;> rfl
  | cons x xs ih => cases n with
    | zero => rfl
    | succ m => simp [insertAtIdx, ih m]

theorem map_removeAtIdx (g : α → β) (n : Nat) (l : List α) :
    (removeAtIdx n l).map g = removeAtIdx n (l.map g) := by
  induction l generalizing n with
  | nil => cases n <;> rfl
  | cons x xs ih => cases n with
    | zero => rfl
    | succ m => simp [removeAtIdx, ih m]

theorem mem_insertAtIdx (a b : α) (n : Nat) (l : List α) :
    b ∈ insertAtIdx a n l ↔ b = a ∨ b ∈ l := by
  induction l generalizing n with
  | nil => cases n <;> simp [insertAtIdx]
  | cons x xs ih =>
    cases n with
    | zero => simp [insertAtIdx]
    | succ m => simp [insertAtIdx, ih m]; tauto

theorem mem_of_mem_removeAtIdx (b : α) (n : Nat) (l : List α)
    (h : b ∈ removeAtIdx n l) : b ∈ l := by
  induction l generalizing n with
  | nil => cases n <;> simp [removeAtIdx] at h
  | cons x xs ih =>
    cases n with
    | zero => simp [removeAtIdx] at h; simp [h]
    | succ m =>
      simp [removeAtIdx] at h
      rcases h with h | h
      · simp [h]
      · exact List.mem_cons_of_mem _ (ih m h)

/-! ## Stamp allocation

`create_playlist` advances `next_stamp` past every stamp already in the
`id_table` (playlist.cc:169-170).  The loop is modelled with fuel
`used.length + 1`, which a pigeonhole argument shows is always enough. -/

/-- The `while (id_table.lookup (next_stamp)) next_stamp ++` loop. -/
def firstFreeAux (used : List Nat) : Nat → Nat → Nat
  | 0, n => n
  | fuel + 1, n => if n ∈ used then firstFreeAux used fuel (n + 1) else n

/-- First stamp `≥ n` not in `used`. -/
def firstFree (used : List Nat) (n : Nat) : Nat :=
  firstFreeAux used (used.length + 1) n

theorem filter_ge_succ_lt (l : List Nat) (n : Nat) (h : n ∈ l) :
    (l.filter fun m => n + 1 ≤ m).length < (l.filter fun m => n ≤ m).length := by
  induction l with
  | nil => simp at h
  | cons a t ih =>
    have mono : ∀ (t' : List Nat),
        (t'.filter fun m => n + 1 ≤ m).length ≤ (t'.filter fun m => n ≤ m).length := by
      intro t'
      induction t' with
      | nil => simp
      | cons b t'' ih' =>
        by_cases hb : n + 1 ≤ b
        · have hb' : n ≤ b := by omega
          simp [List.filter, hb, hb', decide_eq_true_eq]
          omega
        · by_cases hb' : n ≤ b <;> simp [List.filter, hb, hb', decide_eq_true_eq] <;> omega
    rcases List.mem_cons.mp h with heq | hmem
    · have h1 : ¬ (n + 1 ≤ a) := by omega
      have h2 : n ≤ a := by omega
      simp [List.filter, h1, h2, decide_eq_true_eq]
      exact Nat.lt_succ_of_le (mono t)
    · have ht := ih hmem
      by_cases hb : n + 1 ≤ a
      · have hb' : n ≤ a := by omega
        simp [List.filter, hb, hb', decide_eq_true_eq]
        omega
      · by_cases hb' : n ≤ a <;> simp [List.filter, hb, hb', decide_eq_true_eq] <;> omega

theorem firstFreeAux_not_mem (used : List Nat) (fuel n : Nat)
    (h : (used.filter fun m => n ≤ m).length < fuel) :
    firstFreeAux used fuel n ∉ used := by
  induction fuel generalizing n with
  | zero => omega
  | succ f ih =>
    by_cases hn : n ∈ used
    · have hlt := filter_ge_succ_lt used n hn
      simpa [firstFreeAux, hn] using ih (n + 1) (by omega)
    · simp [firstFreeAux, hn]

theorem firstFree_not_mem (used : List Nat) (n : Nat) :
    firstFree used n ∉ used := by
  have hle : (used.filter fun m => n ≤ m).length ≤ used.length :=
    List.length_filter_le _ _
  exact firstFreeAux_not_mem used (used.length + 1) n (by omega)

/-! ## Lookup and mutation helpers

A public handle stores a `Playlist::ID *`; dereferencing it means reading
`id->data` (playlist.cc:72-76).  In the model a handle is the record's
stamp, and a live record is one whose playlist is in the Registry. -/

/-- First playlist whose embedded ID record has the given stamp (`none`
means the weak pointer is dead: `id->data == nullptr`). -/
def findByStamp (st : Nat) : List PData → Option PData
  | [] => none
  | p :: ps => if p.stamp = st then some p else findByStamp st ps

/-- Dereference a handle: `m_id ? m_id->data : nullptr`. -/
def lookupLive (s : GS) (st : Nat) : Option PData :=
  findByStamp st s.playlists

/-- Mutate the playlist a live pointer designates (first stamp match). -/
def modifyFirstBy (p : α → Bool) (f : α → α) : List α → List α
  | [] => []
  | a :: as => if p a then f a :: as else a :: modifyFirstBy p f as

/-- Remove the first list node matching `p` (`List::remove` on the node
`find` returned). -/
def removeFirstBy (p : α → Bool) : List α → List α
  | [] => []
  | a :: as => if p a then as else a :: removeFirstBy p as

/-- Apply `f` to the playlist with stamp `st` (pointer-mediated mutation). -/
def modifyPData (s : GS) (st : Nat) (f : PData → PData) : GS :=
  { s with playlists := modifyFirstBy (fun p => p.stamp == st) f s.playlists }

/-- Apply `f` to the playlist at Registry index `i`. -/
def modifyIdxGS (s : GS) (i : Nat) (f : PData → PData) : GS :=
  { s with playlists := modifyIdx f i s.playlists }

/-- Apply `f` to entry `eIdx` of the playlist with stamp `st`. -/
def modifyEntryAt (s : GS) (st : Nat) (eIdx : Nat) (f : EntryD → EntryD) : GS :=
  modifyPData s st fun p => { p with entries := modifyIdx f eIdx p.entries }

/-- `PlaylistData::entry_at`.  Modelled from the spec: returns the entry at
a valid index and null otherwise. -/
def entryAt (p : PData) (i : Int) : Option EntryD :=
  if 0 ≤ i then p.entries[i.toNat]? else none

/-- `scan_status` of the playlist a live pointer designates. -/
def statusOf (s : GS) (st : Nat) : Option ScanStatus :=
  (lookupLive s st).map fun p => p.scanStatus

/-! ## Scan scheduler (playlist.cc:255-423) -/

/-- `scan_list_find_entry` (playlist.cc:255-261): find the scan item for a
given entry (here: playlist stamp + entry index). -/
def scan_list_find_entry (s : GS) (st : Nat) (eIdx : Nat) : Option ScanItem :=
  s.scanList.find? fun it => it.playlist == st && it.entry == eIdx

/-- `scan_queue_entry` (playlist.cc:263-280): build a request whose flags
ask for a tuple when the current one is invalid and for image/file when the
entry is queued for playback, append a `ScanItem`, and submit the request
to the scanner backend unless it is for playback. -/
def scan_queue_entry (s : GS) (st : Nat) (eIdx : Nat) (for_playback : Bool) : GS :=
  match (lookupLive s st).bind fun p => p.entries[eIdx]? with
  | none => s
  | some e =>
    let flags := (if ¬ e.tuple.valid then SCAN_TUPLE else 0) +
      (if for_playback then SCAN_IMAGE + SCAN_FILE else 0)
    let req := s.nextRequest
    let item : ScanItem :=
      { playlist := st, entry := eIdx, request := req, reqFlags := flags
        for_playback := for_playback, handled_by_playback := false }
    let s := { s with scanList := s.scanList ++ [item], nextRequest := req + 1 }
    if ¬ for_playback then { s with log := s.log ++ [Event.scannerRequest req] }
    else s

/-- `scan_reset_playback` (playlist.cc:282-296): clear the `for_playback`
flag of the playback scan item and, if the playback thread never picked it
up, hand the request over to the scanner backend. -/
def scan_reset_playback (s : GS) : GS :=
  match s.scanList.find? (fun it => it.for_playback) with
  | none => s
  | some item =>
    let cleared := modifyFirstBy (fun it => it.for_playback)
      (fun it => { it with for_playback := false }) s.scanList
    let s := { s with scanList := cleared }
    if ¬ item.handled_by_playback then
      { s with log := s.log ++ [Event.scannerRequest item.request] }
    else s

/-- `scan_check_complete` (playlist.cc:298-316): once a playlist in state
`ScanEnding` has no scan items left, return it to `NotScanning`, flush a
delayed global update immediately, and (re)queue the "playlist scan
complete" event. -/
def scan_check_complete (s : GS) (st : Nat) : GS :=
  if statusOf s st = some ScanStatus.ScanEnding ∧
      (s.scanList.find? fun it => it.playlist == st) = none then
    let s := modifyPData s st fun p => { p with scanStatus := .NotScanning }
    let s :=
      if s.updateDelayed then
        { s with timer := some .immediate, updateDelayed := false }
      else s
    { s with log := s.log ++
      [Event.eventCancel "playlist scan complete",
       Event.eventQueued "playlist scan complete"] }
  else s

/-- `PlaylistData::next_unscanned_entry (row)`.  Modelled from the spec:
the first entry at index ≥ `row` that the scanner still has to visit (its
tuple is not yet valid), or none. -/
def findUnscannedAux (i : Nat) : List EntryD → Option Nat
  | [] => none
  | e :: es => if ¬ e.tuple.valid then some i else findUnscannedAux (i + 1) es

def findUnscanned (entries : List EntryD) (row : Nat) : Option Nat :=
  findUnscannedAux row (entries.drop row)

/-- The inner `while (1)` row walk of `scan_queue_next_entry`
(playlist.cc:329-345): starting at `row`, find the next unscanned entry
that has no scan item yet and is not blacklisted (`stdin://`); skipped rows
advance the cursor.  The fuel `entries.length + 1` dominates the walk since
every iteration advances the row. -/
def scanWalkAux (s : GS) (st : Nat) (entries : List EntryD) : Nat → Nat → Option Nat
  | 0, _ => none
  | fuel + 1, row =>
    match findUnscanned entries row with
    | none => none
    | some r =>
      let fname := ((entries[r]?).map fun e => e.filename).getD ""
      if (scan_list_find_entry s st r) = none ∧ ¬ fname.startsWith "stdin://" then
        some r
      else
        scanWalkAux s st entries fuel (r + 1)

/-- The playlist walk of `scan_queue_next_entry` (playlist.cc:318-356),
fuelled by the number of playlists still ahead of the cursor. -/
def scanQueueNextAux : Nat → GS → GS × Bool
  | 0, s => (s, false)
  | fuel + 1, s =>
    if h : s.scanPlaylist < s.playlists.length then
      let p := s.playlists.get ⟨s.scanPlaylist, h⟩
      if p.scanStatus = .ScanActive then
        match scanWalkAux s p.stamp p.entries (p.entries.length + 1) s.scanRow with
        | some r =>
          let s := { s with scanRow := r }
          (scan_queue_entry s p.stamp r false, true)
        | none =>
          let s := modifyIdxGS s s.scanPlaylist fun q => { q with scanStatus := .ScanEnding }
          let s := scan_check_complete s p.stamp
          scanQueueNextAux fuel { s with scanPlaylist := s.scanPlaylist + 1, scanRow := 0 }
      else
        scanQueueNextAux fuel { s with scanPlaylist := s.scanPlaylist + 1, scanRow := 0 }
    else (s, false)

/-- `scan_queue_next_entry` (playlist.cc:318-356). -/
def scan_queue_next_entry (s : GS) : GS × Bool :=
  if ¬ s.scanEnabled then (s, false)
  else scanQueueNextAux (s.playlists.length + 1) s

/-- The `while (scan_queue_next_entry ())` loop of `scan_schedule`
(playlist.cc:368-372); the fuel is the remaining request capacity. -/
def scanScheduleLoop : Nat → GS → GS
  | 0, s => s
  | fuel + 1, s =>
    match scan_queue_next_entry s with
    | (s', true) => scanScheduleLoop fuel s'
    | (s', false) => s'

/-- `scan_schedule` (playlist.cc:358-373): count in-flight items and queue
new entries while below `SCAN_THREADS`. -/
def scan_schedule (s : GS) : GS :=
  if SCAN_THREADS ≤ s.scanList.length then s
  else scanScheduleLoop (SCAN_THREADS - s.scanList.length) s

/-- `scan_restart` (playlist.cc:418-423). -/
def scan_restart (s : GS) : GS :=
  scan_schedule { s with scanPlaylist := 0, scanRow := 0 }

/-! ## Update bus (playlist.cc:186-232, 491-511) -/

/-- `queue_global_update` (playlist.cc:202-225). -/
def queue_global_update (s : GS) (level : UpdateLevel) (flags : Nat) : GS :=
  let s := if level = .Structure then scan_restart s else s
  let s :=
    if (flags &&& DelayedUpdateFlag) ≠ 0 then
      if s.updateLevel = .NoUpdate then
        { s with timer := some .delayed250, updateDelayed := true }
      else s
    else
      if s.updateLevel = .NoUpdate ∨ s.updateDelayed then
        { s with timer := some .immediate, updateDelayed := false }
      else s
  { s with updateLevel := levelMax s.updateLevel level }

/-- `pl_signal_update_queued` (playlist.cc:491-511): a `Structure` update
(re)activates scanning for the playlist; `Metadata` and above refresh the
playback info when the playlist is playing and mark it modified; finally
the update is merged into the global state. -/
def pl_signal_update_queued (s : GS) (st : Nat) (level : UpdateLevel) (flags : Nat) : GS :=
  match lookupLive s st with
  | none => s
  | some _ =>
    let s :=
      if level = .Structure then
        modifyPData s st fun p => { p with scanStatus := .ScanActive }
      else s
    let s :=
      if UpdateLevel.Metadata.toNat ≤ level.toNat then
        let s :=
          match lookupLive s st with
          | some p =>
            if s.playing = some st ∧ 0 ≤ p.position then
              match entryAt p p.position with
              | some e => { s with log := s.log ++ [Event.playbackSetInfo p.position e.tuple] }
              | none => s
            else s
          | none => s
        modifyPData s st fun p => { p with modified := true }
      else s
    queue_global_update s level flags

/-- `PlaylistData::queue_update`.  Modelled from the spec: accumulates
level and entry range into the per-playlist pending-update record, then
signals the core (which ends in `queue_global_update`). -/
def pd_queue_update (s : GS) (st : Nat) (level : UpdateLevel) (lo count flags : Nat) : GS :=
  match lookupLive s st with
  | none => s
  | some _ =>
    let s := modifyPData s st fun p =>
      { p with pendingUpdate := mergeURec p.pendingUpdate level lo count }
    pl_signal_update_queued s st level flags

/-- `PlaylistData::update_entry_from_scan`.  Modelled from the spec: merges
the scan result into the entry (decoder and tuple become available) and
queues a `Metadata` update for that entry with the given flags. -/
def update_entry_from_scan (s : GS) (st : Nat) (eIdx : Nat) (flags : Nat) : GS :=
  let s := modifyEntryAt s st eIdx fun e =>
    { e with decoder := some (e.decoder.getD 0), tuple := { e.tuple with valid := true } }
  pd_queue_update s st .Metadata eIdx 1 flags

/-- The `update_flags` computation inside `scan_finish`
(playlist.cc:391-394): `DelayedUpdate` only if scanning is enabled and the
playlist's scan status is not `NotScanning`. -/
def scanFinishFlags (scanEnabled : Bool) (status : ScanStatus) : Nat :=
  if scanEnabled ∧ status ≠ .NotScanning then DelayedUpdateFlag else 0

/-- `scan_finish` (playlist.cc:375-406), the scanner completion callback:
locate the item by request id (returning unchanged when it is gone), remove
it, merge results with the computed flags, check scan completion, schedule
more work and broadcast the condition variable. -/
def scan_finish (s : GS) (request : Nat) : GS :=
  match s.scanList.find? (fun it => it.request == request) with
  | none => s
  | some item =>
    let shrunk := removeFirstBy (fun it => it.request == request) s.scanList
    let s := { s with scanList := shrunk }
    let status := match statusOf s item.playlist with
      | some st => st
      | none => .NotScanning
    let flags := scanFinishFlags s.scanEnabled status
    let s := update_entry_from_scan s item.playlist item.entry flags
    let s := scan_check_complete s item.playlist
    let s := scan_schedule s
    { s with log := s.log ++ [Event.condBroadcast] }

/-- `scan_cancel` (playlist.cc:408-416). -/
def scan_cancel (s : GS) (st : Nat) (eIdx : Nat) : GS :=
  match scan_list_find_entry s st eIdx with
  | none => s
  | some _ =>
    { s with scanList :=
      removeFirstBy (fun it => it.playlist == st && it.entry == eIdx) s.scanList }

/-- `stop_playback_locked` (playlist.cc:478-484). -/
def stop_playback_locked (s : GS) : GS :=
  let s := { s with log := s.log ++ [Event.artClearCurrent] }
  let s := scan_reset_playback s
  { s with log := s.log ++ [Event.playbackStop] }

/-! ## Registry and ID scheme (playlist.cc:160-184, 678-793) -/

/-- `create_playlist` (playlist.cc:160-178): make an ID record with the
requested stamp when it is non-negative and unused, otherwise with the next
free stamp from the monotonic counter, and attach a fresh `PlaylistData`.
Returns the updated table state and the new playlist (record + data). -/
def create_playlist (s : GS) (stamp : Int) : GS × PData :=
  if 0 ≤ stamp ∧ stamp.toNat ∉ s.usedStamps then
    ({ s with usedStamps := stamp.toNat :: s.usedStamps }, newPData stamp.toNat)
  else
    let fresh := firstFree s.usedStamps s.nextStamp
    ({ s with usedStamps := fresh :: s.usedStamps, nextStamp := fresh }, newPData fresh)

/-- `number_playlists (at, length)` (playlist.cc:180-184): set
`playlists[i]->id ()->index = i` for `i ∈ [at, at+length)`. -/
def renumberAux (a len : Nat) : Nat → List PData → List PData
  | _, [] => []
  | i, p :: ps =>
    (if a ≤ i ∧ i < a + len then { p with index := (i : Int) } else p) ::
      renumberAux a len (i + 1) ps

def number_playlists (a len : Nat) (l : List PData) : List PData :=
  renumberAux a len 0 l

/-- `insert_playlist_locked` (playlist.cc:678-697): clamp the position,
create the playlist, insert it, renumber from the insertion point, adopt it
as active at startup, and queue a `Structure` update on it.  Returns the
new playlist's stamp alongside the state. -/
def insert_playlist_locked (s : GS) (pos : Int) (stamp : Int) : GS × Nat :=
  let atN := if pos < 0 ∨ (s.playlists.length : Int) < pos then s.playlists.length
    else pos.toNat
  let cr := create_playlist s stamp
  let pls := insertAtIdx cr.2 atN cr.1.playlists
  let pls := number_playlists atN (pls.length - atN) pls
  let s := { cr.1 with playlists := pls }
  let s := if s.active.isNone then { s with active := some cr.2.stamp } else s
  (pd_queue_update s cr.2.stamp .Structure 0 0 0, cr.2.stamp)

/-- `PlaylistEx::insert_with_stamp` (playlist.cc:707-712). -/
def insert_with_stamp (s : GS) (pos : Int) (stamp : Int) : GS × Nat :=
  insert_playlist_locked s pos stamp

/-- `Playlist::insert_playlist` (playlist.cc:714-719). -/
def insert_playlist (s : GS) (pos : Int) : GS × Nat :=
  insert_playlist_locked s pos (-1)

/-- `Playlist::reorder_playlists` (playlist.cc:721-751).  The guard is the
source's; the displaced-slice dance through `Index::move_from`/`shift`
(whose implementation is outside these sources) is modelled from the spec:
the net effect is the rotation that makes the original `count` consecutive
items starting at `src` end up starting at `dst`.  The renumbered range is
the source's (`[dst, src+count)` resp. `[src, dst+count)`). -/
def reorder_playlists (s : GS) (src dst count : Int) : GS :=
  if src < 0 ∨ (s.playlists.length : Int) < src + count ∨ dst < 0 ∨
      (s.playlists.length : Int) < dst + count ∨ count < 0 then s
  else
    let f := src.toNat
    let t := dst.toNat
    let c := count.toNat
    let slice := (s.playlists.drop f).take c
    let rest := s.playlists.take f ++ s.playlists.drop (f + c)
    let moved := rest.take t ++ slice ++ rest.drop t
    let pls :=
      if t < f then number_playlists t (f + c - t) moved
      else number_playlists f (t + c - f) moved
    queue_global_update { s with playlists := pls } .Structure 0

/-- `Playlist::remove_playlist` (playlist.cc:753-793): a dead handle is a
no-op; otherwise erase the playlist at the handle's recorded index (its
entry destruction cancels any in-flight scans for it), synthesize a fresh
default playlist when the Registry became empty, renumber from the removal
point, move `active` to the playlist now at the removed index clamped to
the last index, clear `playing` and stop playback when the removed playlist
was playing, queue a `Structure` update and fire the applicable hooks. -/
def remove_surgery (s : GS) (st : Nat) (p : PData) : GS :=
  let atN := p.index.toNat
  let pls := removeAtIdx atN s.playlists
  let survivors := s.scanList.filter fun it => ¬ it.playlist == st
  let s1 := { s with playlists := pls, scanList := survivors }
  let s2 :=
    if s1.playlists.length = 0 then
      let cr := create_playlist s1 (-1)
      { cr.1 with playlists := cr.1.playlists ++ [cr.2] }
    else s1
  { s2 with playlists := number_playlists atN (s2.playlists.length - atN) s2.playlists }

/-- The body of `Playlist::remove_playlist` after the surgery: reseat
`active`, clear `playing` and stop playback, queue the `Structure` update
and fire the applicable hooks (playlist.cc:768-792). -/
def remove_after (s3 : GS) (wasActive wasPlaying : Bool) (atN : Nat) : GS :=
  let s4 :=
    if wasActive then
      match s3.playlists[min atN (s3.playlists.length - 1)]? with
      | some q => { s3 with active := some q.stamp }
      | none => s3
    else s3
  let s5 :=
    if wasPlaying then stop_playback_locked { s4 with playing := none }
    else s4
  let s6 := queue_global_update s5 .Structure 0
  let s7 :=
    if wasActive then { s6 with log := s6.log ++ [Event.hookCall "playlist activate"] }
    else s6
  if wasPlaying then
    { s7 with log := s7.log ++
      [Event.hookCall "playlist set playing", Event.hookCall "playback stop"] }
  else s7

def remove_playlist_locked (s : GS) (st : Nat) (p : PData) : GS :=
  remove_after (remove_surgery s st p) (decide (s.active = some st))
    (decide (s.playing = some st)) p.index.toNat

def remove_playlist (s : GS) (h : Option Nat) : GS :=
  match h with
  | none => s
  | some st =>
    match lookupLive s st with
    | none => s
    | some p => remove_playlist_locked s st p

/-- The pristine static state of playlist.cc before any playlist exists. -/
def emptyGS : GS :=
  { usedStamps := [], nextStamp := 1000, playlists := [], active := none
    playing := none, resumePlaylist := -1, resumePaused := false
    updateLevel := .NoUpdate, updateDelayed := false, timer := none
    scanEnabled := false, scanPlaylist := 0, scanRow := 0, scanList := []
    nextRequest := 0, currentSerial := none, log := [] }

/-- The state right after initialization.  Modelled from the spec: the
startup sequence (outside these sources) creates the first playlist through
`insert_playlist_locked`, which also adopts it as active ("this will only
happen at startup", playlist.cc:690-692); §8 scenario 1: after init,
`n_playlists () == 1`. -/
def initGS : GS :=
  (insert_playlist_locked emptyGS 0 (-1)).1

/-- The structural Registry operations of the claim: playlist creation /
insertion (`insert_playlist` / `insert_with_stamp`, both through
`insert_playlist_locked`), reordering and removal. -/
inductive RegOp
  | insertAt (pos : Int) (stamp : Int)
  | reorder (src dst count : Int)
  | remove (st : Nat)
  deriving DecidableEq, Repr

def regStep (s : GS) : RegOp → GS
  | .insertAt pos stamp => (insert_playlist_locked s pos stamp).1
  | .reorder src dst count => reorder_playlists s src dst count
  | .remove st => remove_playlist s (some st)

/-- Run a sequence of Registry operations from the initial state. -/
def runRegOps (ops : List RegOp) : GS :=
  ops.foldl regStep initGS

/-! ## Public `Playlist` handle operations (playlist.cc:585-663, 795-861,
1025-1056, 1111-1123)

A handle wraps a possibly-null `Playlist::ID *`; `ENTER_GET_PLAYLIST`
dereferences it and bails out with the operation's neutral value when the
playlist is gone (playlist.cc:72-76). -/

/-- `m_id ? m_id->data : nullptr`. -/
def derefHandle (s : GS) (h : Option Nat) : Option PData :=
  h.bind fun st => lookupLive s st

/-- `Playlist::n_entries` (playlist.cc:585-586). -/
def playlist_n_entries (s : GS) (h : Option Nat) : Int × GS :=
  match derefHandle s h with
  | none => (0, s)
  | some p => ((p.entries.length : Int), s)

/-- `Playlist::get_position` (playlist.cc:588-589). -/
def playlist_get_position (s : GS) (h : Option Nat) : Int × GS :=
  match derefHandle s h with
  | none => (-1, s)
  | some p => (p.position, s)

/-- `Playlist::get_focus` (playlist.cc:590-591). -/
def playlist_get_focus (s : GS) (h : Option Nat) : Int × GS :=
  match derefHandle s h with
  | none => (-1, s)
  | some p => (p.focus, s)

/-- `Playlist::index` (playlist.cc:650-655): reads `m_id->index` (the ID
record field, embedded here in the live playlist). -/
def playlist_index (s : GS) (h : Option Nat) : Int × GS :=
  match h with
  | none => (-1, s)
  | some st =>
    match lookupLive s st with
    | none => (-1, s)
    | some p => (p.index, s)

/-- `PlaylistEx::stamp` (playlist.cc:657-662). -/
def playlist_stamp (s : GS) (h : Option Nat) : Int × GS :=
  match h with
  | none => (-1, s)
  | some st =>
    match lookupLive s st with
    | none => (-1, s)
    | some _ => ((st : Int), s)

/-- `Playlist::get_title` (playlist.cc:824-829); a dead handle yields the
null `String ()`, modelled as the empty string. -/
def playlist_get_title (s : GS) (h : Option Nat) : String × GS :=
  match derefHandle s h with
  | none => ("", s)
  | some p => (p.title, s)

/-- `Playlist::get_filename` (playlist.cc:806-811); `none` is the null
`String ()`. -/
def playlist_get_filename (s : GS) (h : Option Nat) : Option String × GS :=
  match derefHandle s h with
  | none => (none, s)
  | some p => (p.filename, s)

/-- `PlaylistEx::get_modified` (playlist.cc:838-843). -/
def playlist_get_modified (s : GS) (h : Option Nat) : Bool × GS :=
  match derefHandle s h with
  | none => (false, s)
  | some p => (p.modified, s)

/-- `Playlist::update_pending` (playlist.cc:642-643); the per-playlist
`update_pending` is modelled from the spec: the pending record's level is
inspected. -/
def playlist_update_pending (s : GS) (h : Option Nat) : Bool × GS :=
  match derefHandle s h with
  | none => (false, s)
  | some p => (decide (p.pendingUpdate.level ≠ .NoUpdate), s)

/-- `Playlist::scan_in_progress` (playlist.cc:234-239). -/
def playlist_scan_in_progress (s : GS) (h : Option Nat) : Bool × GS :=
  match derefHandle s h with
  | none => (false, s)
  | some p => (decide (p.scanStatus ≠ .NotScanning), s)

/-- `Playlist::n_queued` (playlist.cc:627-628); the queue itself is a
`PlaylistData` internal, modelled from the spec as a list of entry
numbers. -/
def playlist_n_queued (s : GS) (h : Option Nat) : Int × GS :=
  match derefHandle s h with
  | none => (0, s)
  | some p => ((p.queue.length : Int), s)

/-- `Playlist::queue_get_entry` (playlist.cc:633-634). -/
def playlist_queue_get_entry (s : GS) (h : Option Nat) (pos : Int) : Int × GS :=
  match derefHandle s h with
  | none => (-1, s)
  | some p =>
    if 0 ≤ pos then
      match p.queue[pos.toNat]? with
      | some e => ((e : Int), s)
      | none => (-1, s)
    else (-1, s)

/-- `Playlist::entry_filename` (playlist.cc:1025-1030), via
`ENTER_GET_ENTRY`; `none` is the null `String ()`. -/
def playlist_entry_filename (s : GS) (h : Option Nat) (num : Int) : Option String × GS :=
  match derefHandle s h with
  | none => (none, s)
  | some p =>
    match entryAt p num with
    | none => (none, s)
    | some e => (some e.filename, s)

/-- `Playlist::set_title` (playlist.cc:813-822). -/
def playlist_set_title (s : GS) (h : Option Nat) (title : String) : GS :=
  match h with
  | none => s
  | some st =>
    match lookupLive s st with
    | none => s
    | some _ =>
      let s := modifyPData s st fun p => { p with title := title, modified := true }
      queue_global_update s .Metadata 0

/-- `Playlist::set_filename` (playlist.cc:795-804). -/
def playlist_set_filename (s : GS) (h : Option Nat) (fn : Option String) : GS :=
  match h with
  | none => s
  | some st =>
    match lookupLive s st with
    | none => s
    | some _ =>
      let s := modifyPData s st fun p => { p with filename := fn, modified := true }
      queue_global_update s .Metadata 0

/-- `Playlist::activate` (playlist.cc:845-861). -/
def playlist_activate (s : GS) (h : Option Nat) : GS :=
  match h with
  | none => s
  | some st =>
    match lookupLive s st with
    | none => s
    | some _ =>
      if s.active ≠ some st then
        { s with active := some st, log := s.log ++ [Event.hookCall "playlist activate"] }
      else s

/-- `PlaylistData::reset_tuples`.  Modelled from the spec: invalidate the
(selected) entries' tuples so that they are rescanned; only the
`selected_only = false` form is used here, selection is not modelled. -/
def reset_tuples (p : PData) : PData :=
  { p with entries := p.entries.map fun e => { e with tuple := { e.tuple with valid := false } } }

/-- `Playlist::rescan_all` (playlist.cc:1104-1116) via
`playlist_rescan_real`. -/
def playlist_rescan_all (s : GS) (h : Option Nat) : GS :=
  match h with
  | none => s
  | some st =>
    match lookupLive s st with
    | none => s
    | some _ =>
      let s := modifyPData s st fun p => { (reset_tuples p) with scanStatus := .ScanActive }
      scan_restart s

/-- `get_entry` in `Nowait` mode (playlist.cc:426-460 with both `need`
flags false resolves in the first loop iteration without waiting): the
entry, or null for a dead handle / bad index. -/
def get_entry_nowait (s : GS) (h : Option Nat) (num : Int) : Option EntryD :=
  match derefHandle s h with
  | none => none
  | some p => entryAt p num

/-- `Playlist::entry_decoder` in `Nowait` mode (playlist.cc:1032-1043);
`none` is the null `PluginHandle *`. -/
def playlist_entry_decoder_nowait (s : GS) (h : Option Nat) (num : Int) : Option Nat × GS :=
  ((get_entry_nowait s h num).bind fun e => e.decoder, s)

/-- `Playlist::entry_tuple` in `Nowait` mode (playlist.cc:1045-1056); the
neutral value is the empty `Tuple ()`. -/
def playlist_entry_tuple_nowait (s : GS) (h : Option Nat) (num : Int) : TupleD × GS :=
  (((get_entry_nowait s h num).map fun e => e.tuple).getD emptyTuple, s)

/-! ## Playback-thread entry points (playlist.cc:1175-1235) -/

/-- `playback_check_serial` (playback.cc, outside these sources).
Modelled from the spec: serial numbers guard against the user switching
tracks mid-read; a serial is valid exactly while it matches the current
playback session's serial, which exists only while a playlist is
playing. -/
def playback_check_serial (s : GS) (serial : Int) : Bool :=
  s.currentSerial = some serial

/-- `get_playback_entry` (playlist.cc:1175-1182): null unless the serial is
current; otherwise the playing playlist's entry at its position.  Returns
the playing stamp and entry number alongside the entry. -/
def get_playback_entry (s : GS) (serial : Int) : Option (Nat × Nat × EntryD) :=
  if playback_check_serial s serial then
    match s.playing with
    | none => none
    | some st =>
      match lookupLive s st with
      | none => none
      | some p =>
        match entryAt p p.position with
        | none => none
        | some e => some (st, p.position.toNat, e)
  else none

/-- `PlaylistData::set_entry_tuple`.  Modelled from the spec: replaces the
entry's tuple. -/
def set_entry_tuple (s : GS) (st : Nat) (eIdx : Nat) (tuple : TupleD) : GS :=
  modifyEntryAt s st eIdx fun e => { e with tuple := tuple }

/-- `playback_entry_set_tuple` (playlist.cc:1222-1235): update the current
playing entry's tuple and queue a `Metadata` update for it, unless the
entry's tuple has the `Tuple::StartTime` field set (a cuesheet entry, which
must not be overwritten by stream metadata). -/
def playback_entry_set_tuple (s : GS) (serial : Int) (tuple : TupleD) : GS :=
  match get_playback_entry s serial with
  | none => s
  | some (st, eIdx, e) =>
    if e.tuple.startTime.isSome then s
    else
      let s := set_entry_tuple s st eIdx tuple
      pd_queue_update s st .Metadata eIdx 1 0

/-! ## The `get_entry` wait loop (playlist.cc:426-460)

`get_entry (id, entry_num, need_decoder, need_tuple)` may release the lock
in `pthread_cond_wait`, during which other threads mutate the shared state.
Each loop iteration therefore observes one state: the loop is modelled as a
step function over the sequence of states observed at successive wakeups,
threading the local `scan_started` flag. -/

/-- What one iteration of the `while (1)` loop observes in the shared
state, for a fixed handle and entry number. -/
structure GetView where
  dataLive : Bool
  entryExists : Bool
  isStdin : Bool
  hasDecoder : Bool
  tupleValid : Bool
  inScanList : Bool
  deriving DecidableEq, Repr

/-- The view of state `s` through handle `h` at entry `num`. -/
def viewOf (s : GS) (h : Option Nat) (num : Int) : GetView :=
  match derefHandle s h with
  | none =>
    { dataLive := false, entryExists := false, isStdin := false
      hasDecoder := false, tupleValid := false, inScanList := false }
  | some p =>
    match entryAt p num, h with
    | some e, some st =>
      { dataLive := true, entryExists := true
        isStdin := e.filename.startsWith "stdin://"
        hasDecoder := e.decoder.isSome, tupleValid := e.tuple.valid
        inScanList := (scan_list_find_entry s st num.toNat).isSome }
    | _, _ =>
      { dataLive := true, entryExists := false, isStdin := false
        hasDecoder := false, tupleValid := false, inScanList := false }

/-- The outcome of one loop iteration: return (from the function), or wait
on the condition variable and go around; `queued` records whether this
iteration called `scan_queue_entry`. -/
inductive IterOut
  | ret (queued : Bool)
  | wait (queued : Bool)
  deriving DecidableEq, Repr

/-- One iteration of the `get_entry` loop body (playlist.cc:431-459),
given the local `scan_started` flag and the observed view. -/
def getEntryIter (needDecoder needTuple scanStarted : Bool) (v : GetView) : IterOut :=
  if ¬ v.dataLive then .ret false
  else if ¬ v.entryExists ∨ v.isStdin then .ret false
  else if (¬ needDecoder ∨ v.hasDecoder) ∧ (¬ needTuple ∨ v.tupleValid) then .ret false
  else if ¬ v.inScanList then
    if scanStarted then .ret false
    else .wait true
  else .wait false

def IterOut.isRet : IterOut → Bool
  | .ret _ => true
  | .wait _ => false

def IterOut.queued : IterOut → Bool
  | .ret q => q
  | .wait q => q

/-- Total number of `scan_queue_entry` calls that `get_entry` makes over a
sequence of observed states (the loop stops at the first returning
iteration; after any non-returning iteration `scan_started` is true,
playlist.cc:457). -/
def getEntryQueueCount (needDecoder needTuple : Bool) (scanStarted : Bool) :
    List GetView → Nat
  | [] => 0
  | v :: vs =>
    match getEntryIter needDecoder needTuple scanStarted v with
    | .ret q => if q then 1 else 0
    | .wait q =>
      (if q then 1 else 0) + getEntryQueueCount needDecoder needTuple true vs

/-! ## State file (playlist.cc:1237-1360)

The state file is line-oriented; each line is a key plus an integer or
string value.  File I/O is abstracted: save produces the list of lines it
would write, load consumes a list of lines.  `TextParser` (parse.cc,
outside these sources) is modelled from the spec: `get_int`/`get_str`
succeed when the current line carries the given key, `next` advances. -/

inductive StateLine
  | activeL (n : Int)
  | playingL (n : Int)
  | playlistL (n : Int)
  | filenameL (f : String)
  | positionL (n : Int)
  | resumeStateL (n : Nat)
  | resumeTimeL (n : Int)
  deriving DecidableEq, Repr

/-- `active_id ? active_id->index : -1` (also for `playing_id`): a deleted
record's `index` is `-1` (playlist.cc:513-518), which `getD` reproduces
when the stamp no longer designates a live playlist. -/
def idIndex (s : GS) (o : Option Nat) : Int :=
  match o with
  | none => -1
  | some st => ((lookupLive s st).map fun p => p.index).getD (-1)

/-- The per-playlist block of `playlist_save_state` (playlist.cc:1255-1268):
`playlist <index>`, the filename when present, `position`, `resume-state`
(`Pause` exactly for the paused playing playlist, else `Play`) and
`resume-time` (the live playback time for the playing playlist, the stored
`resume_time` otherwise). -/
def saveRow (playing : Option Nat) (paused : Bool) (time : Int) (p : PData) :
    List StateLine :=
  [StateLine.playlistL p.index] ++
  (match p.filename with
   | some f => [StateLine.filenameL f]
   | none => []) ++
  [StateLine.positionL p.position,
   StateLine.resumeStateL (if playing = some p.stamp ∧ paused then ResumePause else ResumePlay),
   StateLine.resumeTimeL (if playing = some p.stamp then time else p.resumeTime)]

/-- `playlist_save_state` (playlist.cc:1237-1272): the lines written, given
the playback paused flag and time captured before taking the lock. -/
def playlist_save_state_lines (s : GS) (paused : Bool) (time : Int) : List StateLine :=
  StateLine.activeL (idIndex s s.active) ::
  StateLine.playingL (idIndex s s.playing) ::
  catMap (saveRow s.playing paused time) s.playlists

/-- The `active` header of `playlist_load_state` (playlist.cc:1288-1294). -/
def loadActiveStep (s : GS) : List StateLine → GS × List StateLine
  | .activeL n :: rest =>
    (if 0 ≤ n then
      match s.playlists[n.toNat]? with
      | some p => { s with active := some p.stamp }
      | none => s
    else s, rest)
  | lines => (s, lines)

/-- The `playing` header (playlist.cc:1296-1297). -/
def loadPlayingStep (s : GS) : List StateLine → GS × List StateLine
  | .playingL n :: rest => ({ s with resumePlaylist := n }, rest)
  | lines => (s, lines)

/-- The number of entries of the playlist at Registry index `n`. -/
def nEntriesAt (s : GS) (n : Nat) : Nat :=
  ((s.playlists[n]?).map fun p => p.entries.length).getD 0

/-- The body of the per-playlist `while` loop of `playlist_load_state`
(playlist.cc:1302-1332), after the `playlist` line has been consumed:
`filename` is assigned unconditionally (null when the line is absent); the
position is applied through `entry_at`/`set_position`; a `resume-state` of
`Stop` for the resume playlist clears it and `Pause` sets `resume_paused`;
`resume-time` is stored. -/
def loadFnStep (s : GS) (n : Nat) : List StateLine → GS × List StateLine
  | .filenameL f :: r => (modifyIdxGS s n fun p => { p with filename := some f }, r)
  | lines => (modifyIdxGS s n fun p => { p with filename := none }, lines)

/-- `position` is read with default -1; `entry_at` accepts only a valid
index, so the set_position call happens exactly for `0 ≤ v < n_entries`
(an absent line, leaving -1, never qualifies). -/
def loadPosStep (s : GS) (n : Nat) : List StateLine → GS × List StateLine
  | .positionL v :: r =>
    (if 0 ≤ v ∧ v.toNat < nEntriesAt s n then
      modifyIdxGS s n fun p => { p with position := v, focus := v }
    else s, r)
  | lines => (s, lines)

def loadRSStep (s : GS) (n : Nat) (lines : List StateLine) : GS × List StateLine :=
  let rs : Nat × List StateLine :=
    match lines with
    | .resumeStateL v :: r => (v, r)
    | _ => (ResumePlay, lines)
  (if (n : Int) = s.resumePlaylist then
    let s := if rs.1 = ResumeStop then { s with resumePlaylist := -1 } else s
    if rs.1 = ResumePause then { s with resumePaused := true } else s
  else s, rs.2)

def loadRTStep (s : GS) (n : Nat) : List StateLine → GS × List StateLine
  | .resumeTimeL v :: r => (modifyIdxGS s n fun p => { p with resumeTime := v }, r)
  | lines => (s, lines)

def loadBlock (s : GS) (n : Nat) (lines : List StateLine) : GS × List StateLine :=
  let a := loadFnStep s n lines
  let b := loadPosStep a.1 n a.2
  let c := loadRSStep b.1 n b.2
  loadRTStep c.1 n c.2

/-- The per-playlist `while` loop (playlist.cc:1299-1333), fuelled by the
number of remaining lines (each iteration consumes at least the `playlist`
line). -/
def loadLoopAux (s : GS) : Nat → List StateLine → GS × List StateLine
  | 0, lines => (s, lines)
  | fuel + 1, lines =>
    match lines with
    | .playlistL n :: rest =>
      if 0 ≤ n ∧ n.toNat < s.playlists.length then
        let step := loadBlock s n.toNat rest
        loadLoopAux step.1 fuel step.2
      else (s, lines)
    | _ => (s, lines)

/-- The post-load fixup (playlist.cc:1337-1358): seed focus and selection
from the position, cancel pending per-playlist updates (selection is a
`PlaylistData` internal and not modelled), stop the update timer and clear
the global update state. -/
def finalizeP (p : PData) : PData :=
  let f := if p.position < 0 ∧ p.entries.length ≠ 0 then 0 else p.position
  let p := if 0 ≤ f then { p with focus := f } else p
  { p with pendingUpdate := noURec }

def loadFinalize (s : GS) : GS :=
  { s with
    playlists := s.playlists.map finalizeP, timer := none
    updateLevel := UpdateLevel.NoUpdate, updateDelayed := false }

/-- `playlist_load_state` (playlist.cc:1274-1360) on a list of lines. -/
def playlist_load_state (s : GS) (lines : List StateLine) : GS :=
  let a := loadActiveStep s lines
  let b := loadPlayingStep a.1 a.2
  let c := loadLoopAux b.1 (b.2.length + 1) b.2
  loadFinalize c.1

/-! ## Renumbering lemmas -/

theorem length_renumberAux (a len i : Nat) (l : List PData) :
    (renumberAux a len i l).length = l.length := by
  induction l generalizing i with
  | nil => rfl
  | cons p ps ih => simp [renumberAux, ih]

theorem getElem_renumberAux (a len i : Nat) (l : List PData) (j : Nat)
    (h : j < (renumberAux a len i l).length) (h' : j < l.length) :
    (renumberAux a len i l)[j] =
      if a ≤ i + j ∧ i + j < a + len then { l[j] with index := ((i + j : Nat) : Int) }
      else l[j] := by
  induction l generalizing i j with
  | nil => simp at h'
  | cons p ps ih =>
    cases j with
    | zero => simp [renumberAux]
    | succ k =>
      have hk : k < (renumberAux a len (i + 1) ps).length := by
        simpa [renumberAux] using h
      have hk' : k < ps.length := by simpa using h'
      have := ih (i + 1) k hk hk'
      simp only [renumberAux, List.getElem_cons_succ]
      rw [this]
      have harith : i + 1 + k = i + (k + 1) := by omega
      rw [harith]

theorem map_stamp_renumberAux (a len i : Nat) (l : List PData) :
    (renumberAux a len i l).map (fun p => p.stamp) = l.map fun p => p.stamp := by
  induction l generalizing i with
  | nil => rfl
  | cons p ps ih =>
    by_cases hcond : a ≤ i ∧ i < a + len <;> simp [renumberAux, hcond, ih]

theorem length_number_playlists (a len : Nat) (l : List PData) :
    (number_playlists a len l).length = l.length :=
  length_renumberAux a len 0 l

theorem getElem_number_playlists (a len : Nat) (l : List PData) (j : Nat)
    (h : j < (number_playlists a len l).length) (h' : j < l.length) :
    (number_playlists a len l)[j] =
      if a ≤ j ∧ j < a + len then { l[j] with index := (j : Int) } else l[j] := by
  have := getElem_renumberAux a len 0 l j h h'
  simpa using this

theorem map_stamp_number_playlists (a len : Nat) (l : List PData) :
    (number_playlists a len l).map (fun p => p.stamp) = l.map fun p => p.stamp :=
  map_stamp_renumberAux a len 0 l

/-! ## Registry-shape preservation

The scan scheduler and update bus mutate per-playlist scan/update fields,
the scan list, the timer and the log, but never the Registry's structure:
the stamps and indices of the playlists, in order, the ID table, and the
active/playing references.  `regShape` captures exactly that. -/

def regShape (s : GS) :
    List (Nat × Int) × List Nat × Option Nat × Option Nat :=
  (s.playlists.map fun p => (p.stamp, p.index), s.usedStamps, s.active, s.playing)

theorem map_modifyFirstBy (g : α → β) (p : α → Bool) (f : α → α) (l : List α)
    (hf : ∀ a, g (f a) = g a) :
    (modifyFirstBy p f l).map g = l.map g := by
  induction l with
  | nil => rfl
  | cons a as ih =>
    by_cases hp : p a <;> simp [modifyFirstBy, hp, hf, ih]

theorem regShape_modifyPData (s : GS) (st : Nat) (f : PData → PData)
    (hstamp : ∀ q, (f q).stamp = q.stamp) (hindex : ∀ q, (f q).index = q.index) :
    regShape (modifyPData s st f) = regShape s := by
  simp only [regShape, modifyPData]
  congr 1
  exact map_modifyFirstBy _ _ _ _ fun a => by simp [hstamp, hindex]

theorem regShape_modifyIdxGS (s : GS) (i : Nat) (f : PData → PData)
    (hstamp : ∀ q, (f q).stamp = q.stamp) (hindex : ∀ q, (f q).index = q.index) :
    regShape (modifyIdxGS s i f) = regShape s := by
  simp only [regShape, modifyIdxGS]
  congr 1
  exact map_modifyIdx _ _ _ _ fun a => by simp [hstamp, hindex]

theorem regShape_scan_queue_entry (s : GS) (st eIdx : Nat) (fp : Bool) :
    regShape (scan_queue_entry s st eIdx fp) = regShape s := by
  unfold scan_queue_entry
  cases h : (lookupLive s st).bind fun p => p.entries[eIdx]? with
  | none => rfl
  | some e => by_cases hfp : fp <;> simp [regShape, hfp]

theorem regShape_scan_reset_playback (s : GS) :
    regShape (scan_reset_playback s) = regShape s := by
  unfold scan_reset_playback
  cases h : s.scanList.find? fun it => it.for_playback with
  | none => rfl
  | some item =>
    by_cases hh : item.handled_by_playback <;> simp [regShape, hh]

theorem regShape_congr (s t : GS) (h1 : t.playlists = s.playlists)
    (h2 : t.usedStamps = s.usedStamps) (h3 : t.active = s.active)
    (h4 : t.playing = s.playing) : regShape t = regShape s := by
  simp [regShape, h1, h2, h3, h4]

theorem regShape_scan_check_complete (s : GS) (st : Nat) :
    regShape (scan_check_complete s st) = regShape s := by
  unfold scan_check_complete
  split
  · have base := regShape_modifyPData s st
      (fun p => { p with scanStatus := ScanStatus.NotScanning }) (fun q => rfl) (fun q => rfl)
    refine Eq.trans (regShape_congr _ _ ?_ ?_ ?_ ?_) base <;> (dsimp only; split <;> rfl)
  · rfl

theorem regShape_scanQueueNextAux (fuel : Nat) (s : GS) :
    regShape (scanQueueNextAux fuel s).1 = regShape s := by
  induction fuel generalizing s with
  | zero => rfl
  | succ f ih =>
    unfold scanQueueNextAux
    by_cases h : s.scanPlaylist < s.playlists.length
    · simp only [h, dite_true]
      set p := s.playlists.get ⟨s.scanPlaylist, h⟩ with hp
      by_cases hst : p.scanStatus = .ScanActive
      · simp only [hst, if_true, ite_true]
        cases hwalk : scanWalkAux s p.stamp p.entries (p.entries.length + 1) s.scanRow with
        | some r =>
          simp only [hwalk]
          have := regShape_scan_queue_entry { s with scanRow := r } p.stamp r false
          simpa [regShape] using this
        | none =>
          simp only [hwalk]
          rw [ih]
          have h1 := regShape_modifyIdxGS s s.scanPlaylist
            (fun q => { q with scanStatus := .ScanEnding }) (fun q => rfl) (fun q => rfl)
          have h2 := regShape_scan_check_complete
            (modifyIdxGS s s.scanPlaylist fun q => { q with scanStatus := .ScanEnding }) p.stamp
          simp only [regShape] at h1 h2 ⊢
          simp_all
      · simp only [hst, if_false, ite_false]
        rw [ih]
        simp [regShape]
    · simp [h]

theorem regShape_scan_queue_next_entry (s : GS) :
    regShape (scan_queue_next_entry s).1 = regShape s := by
  unfold scan_queue_next_entry
  by_cases h : s.scanEnabled
  · simp only [h, not_true, if_false, ite_false, ite_true]
    exact regShape_scanQueueNextAux _ s
  · simp [h]

theorem regShape_scanScheduleLoop (fuel : Nat) (s : GS) :
    regShape (scanScheduleLoop fuel s) = regShape s := by
  induction fuel generalizing s with
  | zero => rfl
  | succ f ih =>
    unfold scanScheduleLoop
    cases hq : scan_queue_next_entry s with
    | mk s' b =>
      have hsh : regShape s' = regShape s := by
        have := regShape_scan_queue_next_entry s
        rw [hq] at this
        exact this
      cases b with
      | true => simp only []; rw [ih, hsh]
      | false => simpa using hsh

theorem regShape_scan_schedule (s : GS) :
    regShape (scan_schedule s) = regShape s := by
  unfold scan_schedule
  by_cases h : SCAN_THREADS ≤ s.scanList.length
  · simp [h]
  · simp only [h, if_false, ite_false]
    exact regShape_scanScheduleLoop _ s

theorem regShape_scan_restart (s : GS) :
    regShape (scan_restart s) = regShape s := by
  unfold scan_restart
  have := regShape_scan_schedule { s with scanPlaylist := 0, scanRow := 0 }
  simpa [regShape] using this

theorem regShape_queue_global_update (s : GS) (level : UpdateLevel) (flags : Nat) :
    regShape (queue_global_update s level flags) = regShape s := by
  unfold queue_global_update
  have h1 : regShape (if level = UpdateLevel.Structure then scan_restart s else s) =
      regShape s := by
    split
    · exact regShape_scan_restart s
    · rfl
  refine Eq.trans (regShape_congr _ _ ?_ ?_ ?_ ?_) h1 <;>
    (dsimp only; repeat' split) <;> rfl

theorem regShape_pl_signal_update_queued (s : GS) (st : Nat)
    (level : UpdateLevel) (flags : Nat) :
    regShape (pl_signal_update_queued s st level flags) = regShape s := by
  unfold pl_signal_update_queued
  cases hlk : lookupLive s st with
  | none => rfl
  | some p0 =>
    dsimp only
    rw [regShape_queue_global_update]
    have h1 : regShape (if level = UpdateLevel.Structure then
        modifyPData s st (fun p => { p with scanStatus := ScanStatus.ScanActive }) else s) =
        regShape s := by
      split
      · exact regShape_modifyPData _ _ _ (fun q => rfl) (fun q => rfl)
      · rfl
    set s1 := if level = UpdateLevel.Structure then
      modifyPData s st (fun p => { p with scanStatus := ScanStatus.ScanActive }) else s with hs1def
    refine Eq.trans ?_ h1
    split
    · refine Eq.trans (regShape_modifyPData _ _ _ (fun q => rfl) (fun q => rfl)) ?_
      cases hlk1 : lookupLive s1 st with
      | none => rfl
      | some p1 =>
        dsimp only
        split
        · cases hent : entryAt p1 p1.position with
          | some e => rfl
          | none => rfl
        · rfl
    · rfl

theorem regShape_pd_queue_update (s : GS) (st : Nat) (level : UpdateLevel)
    (lo count flags : Nat) :
    regShape (pd_queue_update s st level lo count flags) = regShape s := by
  unfold pd_queue_update
  cases hlk : lookupLive s st with
  | none => rfl
  | some p0 =>
    simp only []
    rw [regShape_pl_signal_update_queued]
    exact regShape_modifyPData s st _ (fun q => rfl) (fun q => rfl)

/-! ## The Registry invariant (spec §3, §8) -/

/-- `registry[j].id.index == i + j` for every `j`: the playlists carry
consecutive indices starting at `i`. -/
def indexedFrom (i : Int) : List PData → Prop
  | [] => True
  | p :: ps => p.index = i ∧ indexedFrom (i + 1) ps

instance indexedFromDec : (i : Int) → (l : List PData) → Decidable (indexedFrom i l)
  | _, [] => .isTrue trivial
  | i, _ :: ps =>
    have : Decidable (indexedFrom (i + 1) ps) := indexedFromDec (i + 1) ps
    inferInstanceAs (Decidable (_ ∧ _))

theorem indexedFrom_iff (i : Int) (l : List PData) :
    indexedFrom i l ↔ ∀ j, (h : j < l.length) → l[j].index = i + j := by
  induction l generalizing i with
  | nil => simp [indexedFrom]
  | cons p ps ih =>
    simp only [indexedFrom, ih]
    constructor
    · rintro ⟨hp, hrest⟩ j h
      cases j with
      | zero => simpa using hp
      | succ k =>
        have hk : k < ps.length := by simpa using h
        have := hrest k hk
        simp only [List.getElem_cons_succ]
        rw [this]
        push_cast
        ring
    · intro hall
      constructor
      · simpa using hall 0 (by simp)
      · intro k hk
        have := hall (k + 1) (by simpa using hk)
        simp only [List.getElem_cons_succ] at this
        rw [this]
        push_cast
        ring

/-- `indexedFrom` only depends on the indices. -/
theorem indexedFrom_congr (i : Int) (l l' : List PData)
    (h : l.map (fun p => p.index) = l'.map fun p => p.index) :
    indexedFrom i l' → indexedFrom i l := by
  intro h'
  rw [indexedFrom_iff] at h' ⊢
  have hlen : l.length = l'.length := by
    have := congrArg List.length h
    simpa using this
  intro j hj
  have hj' : j < l'.length := by omega
  have e : l[j]?.map (fun p => p.index) = l'[j]?.map fun p => p.index := by
    rw [← List.getElem?_map, ← List.getElem?_map, h]
  rw [List.getElem?_eq_getElem hj, List.getElem?_eq_getElem hj'] at e
  simp only [Option.map_some'] at e
  rw [Option.some.injEq] at e
  rw [e]
  exact h' j hj'

/-- The Registry invariant: every playlist's ID record carries its Registry
position as `index`; stamps are unique across the whole ID table (and hence
across the Registry, whose stamps all live in the table); `active_id` is
non-null and references a live playlist; `playing_id`, when non-null,
references a live playlist; and the Registry holds at least one
playlist. -/
def registryInvariant (s : GS) : Prop :=
  indexedFrom 0 s.playlists ∧
  s.usedStamps.Nodup ∧
  (s.playlists.map fun p => p.stamp).Nodup ∧
  (∀ st ∈ s.playlists.map fun p => p.stamp, st ∈ s.usedStamps) ∧
  s.active.isSome = true ∧
  (∀ a, s.active = some a → a ∈ s.playlists.map fun p => p.stamp) ∧
  (∀ g, s.playing = some g → g ∈ s.playlists.map fun p => p.stamp) ∧
  1 ≤ s.playlists.length

/-- The part of the invariant that already holds before the first playlist
exists (`active_id` may still be null and the Registry may be empty);
`insert_playlist_locked` upgrades it to the full invariant. -/
def preInvariant (s : GS) : Prop :=
  indexedFrom 0 s.playlists ∧
  s.usedStamps.Nodup ∧
  (s.playlists.map fun p => p.stamp).Nodup ∧
  (∀ st ∈ s.playlists.map fun p => p.stamp, st ∈ s.usedStamps) ∧
  (∀ a, s.active = some a → a ∈ s.playlists.map fun p => p.stamp) ∧
  (∀ g, s.playing = some g → g ∈ s.playlists.map fun p => p.stamp)

theorem preInvariant_of_registryInvariant {s : GS} (h : registryInvariant s) :
    preInvariant s :=
  ⟨h.1, h.2.1, h.2.2.1, h.2.2.2.1, h.2.2.2.2.2.1, h.2.2.2.2.2.2.1⟩

/-- `insertAtIdx` is a permutation of `cons`. -/
theorem insertAtIdx_perm (a : α) (n : Nat) (l : List α) :
    List.Perm (insertAtIdx a n l) (a :: l) := by
  induction l generalizing n with
  | nil => cases n <;> simp [insertAtIdx]
  | cons x xs ih =>
    cases n with
    | zero => simp [insertAtIdx]
    | succ m =>
      have h1 : List.Perm (x :: insertAtIdx a m xs) (x :: a :: xs) := (ih m).cons x
      have h2 : List.Perm (x :: a :: xs) (a :: x :: xs) := List.Perm.swap a x xs
      exact h1.trans h2

/-- Transport of the invariant along `regShape` equality. -/
theorem regShape_fields {s t : GS} (h : regShape t = regShape s) :
    t.playlists.map (fun p => p.stamp) = s.playlists.map (fun p => p.stamp) ∧
    t.playlists.map (fun p => p.index) = s.playlists.map (fun p => p.index) ∧
    t.playlists.length = s.playlists.length ∧
    t.usedStamps = s.usedStamps ∧ t.active = s.active ∧ t.playing = s.playing := by
  simp only [regShape, Prod.mk.injEq] at h
  obtain ⟨h1, h2, h3, h4⟩ := h
  refine ⟨?_, ?_, ?_, h2, h3, h4⟩
  · have := congrArg (List.map Prod.fst) h1
    simpa [List.map_map, Function.comp] using this
  · have := congrArg (List.map Prod.snd) h1
    simpa [List.map_map, Function.comp] using this
  · have := congrArg List.length h1
    simpa using this

theorem registryInvariant_transport {s t : GS} (h : regShape t = regShape s)
    (hinv : registryInvariant s) : registryInvariant t := by
  obtain ⟨hs, hi, hl, hu, ha, hg⟩ := regShape_fields h
  obtain ⟨h1, h2, h3, h4, h5, h6, h7, h8⟩ := hinv
  refine ⟨?_, ?_, ?_, ?_, ?_, ?_, ?_, ?_⟩
  · exact indexedFrom_congr 0 _ _ hi h1
  · rw [hu]; exact h2
  · rw [hs]; exact h3
  · intro st hst
    rw [hu]
    exact h4 st (by rwa [hs] at hst)
  · rw [ha]; exact h5
  · intro a haa
    rw [hs]
    exact h6 a (by rwa [ha] at haa)
  · intro g hgg
    rw [hs]
    exact h7 g (by rwa [hg] at hgg)
  · rw [hl]; exact h8

theorem create_playlist_spec (s : GS) (stamp : Int) :
    (create_playlist s stamp).1.playlists = s.playlists ∧
    (create_playlist s stamp).1.active = s.active ∧
    (create_playlist s stamp).1.playing = s.playing ∧
    (create_playlist s stamp).1.usedStamps =
      (create_playlist s stamp).2.stamp :: s.usedStamps ∧
    (create_playlist s stamp).2.stamp ∉ s.usedStamps ∧
    (create_playlist s stamp).2.index = -1 := by
  unfold create_playlist
  split
  case isTrue h => exact ⟨rfl, rfl, rfl, by simp [newPData], by simpa [newPData] using h.2,
    by simp [newPData]⟩
  case isFalse h => exact ⟨rfl, rfl, rfl, by simp [newPData],
    by simpa [newPData] using firstFree_not_mem s.usedStamps s.nextStamp, by simp [newPData]⟩

theorem indexedFrom_insert_renumber (l : List PData) (a : PData) (atN : Nat)
    (hat : atN ≤ l.length) (hidx : indexedFrom 0 l) :
    indexedFrom 0 (number_playlists atN ((insertAtIdx a atN l).length - atN)
      (insertAtIdx a atN l)) := by
  rw [indexedFrom_iff]
  intro j hj
  have hlen : (insertAtIdx a atN l).length = l.length + 1 := length_insertAtIdx _ _ _
  have hj1 : j < (insertAtIdx a atN l).length := by
    rw [length_number_playlists] at hj
    exact hj
  rw [getElem_number_playlists _ _ _ _ hj hj1]
  by_cases hjat : atN ≤ j
  · have hup : j < atN + ((insertAtIdx a atN l).length - atN) := by omega
    rw [if_pos ⟨hjat, hup⟩]
    simp
  · have hno : ¬ (atN ≤ j ∧ j < atN + ((insertAtIdx a atN l).length - atN)) := by omega
    rw [if_neg hno]
    have hjs : j < l.length := by omega
    rw [getElem_insertAtIdx_lt a atN l j hj1 hjs (by omega)]
    simpa using (indexedFrom_iff 0 l).mp hidx j hjs

theorem preInvariant_insert (s : GS) (pos stamp : Int) (h : preInvariant s) :
    registryInvariant (insert_playlist_locked s pos stamp).1 := by
  obtain ⟨hidx, hnodupU, hnodupS, hsub, hact, hplay⟩ := h
  obtain ⟨c1, c2, c3, c4, c5, c6⟩ := create_playlist_spec s stamp
  unfold insert_playlist_locked
  dsimp only
  rw [c1]
  refine registryInvariant_transport (regShape_pd_queue_update _ _ _ _ _ _) ?_
  set cr := create_playlist s stamp with hcr
  set atN := (if pos < 0 ∨ (s.playlists.length : Int) < pos then s.playlists.length
    else pos.toNat) with hatN
  set pls2 := number_playlists atN ((insertAtIdx cr.2 atN s.playlists).length - atN)
    (insertAtIdx cr.2 atN s.playlists) with hpls2
  have hlen2 : pls2.length = s.playlists.length + 1 := by
    rw [hpls2, length_number_playlists, length_insertAtIdx]
  have hmap2 : pls2.map (fun p => p.stamp) =
      insertAtIdx cr.2.stamp atN (s.playlists.map fun p => p.stamp) := by
    rw [hpls2, map_stamp_number_playlists, map_insertAtIdx]
  have hperm : List.Perm (pls2.map fun p => p.stamp)
      (cr.2.stamp :: s.playlists.map fun p => p.stamp) := by
    rw [hmap2]
    exact insertAtIdx_perm _ _ _
  have hfreshS : cr.2.stamp ∉ s.playlists.map (fun p => p.stamp) := fun hm => c5 (hsub _ hm)
  have hatle : atN ≤ s.playlists.length := by
    rw [hatN]
    split
    · exact Nat.le_refl _
    · next hcond => omega
  have hidx2 : indexedFrom 0 pls2 := by
    rw [hpls2]
    exact indexedFrom_insert_renumber s.playlists cr.2 atN hatle hidx
  have hmem2 : ∀ x, x ∈ pls2.map (fun p => p.stamp) ↔
      x = cr.2.stamp ∨ x ∈ s.playlists.map fun p => p.stamp := by
    intro x
    rw [hperm.mem_iff]
    simp
  constructor
  · split <;> exact hidx2
  constructor
  · split <;> (show (cr.1.usedStamps).Nodup; rw [c4]; exact List.nodup_cons.mpr ⟨c5, hnodupU⟩)
  constructor
  · split <;> exact (hperm.nodup_iff).mpr (List.nodup_cons.mpr ⟨hfreshS, hnodupS⟩)
  constructor
  · split <;>
      (intro st hst
       show st ∈ cr.1.usedStamps
       rw [c4]
       rcases (hmem2 st).mp hst with rfl | hold
       · exact List.mem_cons_self _ _
       · exact List.mem_cons_of_mem _ (hsub st hold))
  constructor
  · split
    · rfl
    · next hne =>
      show cr.1.active.isSome = true
      rw [c2]
      rw [Option.isSome_iff_ne_none]
      rw [show ({ cr.1 with playlists := pls2 } : GS).active = s.active from c2] at hne
      simpa using hne
  constructor
  · split
    · intro a ha
      have ha2 : cr.2.stamp = a := by simpa using ha
      subst ha2
      exact (hmem2 _).mpr (Or.inl rfl)
    · intro a ha
      rw [show ({ cr.1 with playlists := pls2 } : GS).active = s.active from c2] at ha
      exact (hmem2 _).mpr (Or.inr (hact a ha))
  constructor
  · split <;>
      (intro g hg
       have hg' : s.playing = some g := by
         rw [← c3]
         exact hg
       exact (hmem2 _).mpr (Or.inr (hplay g hg')))
  · split <;> (show 1 ≤ pls2.length; omega)

/-! ## Reorder lemmas -/

theorem perm_rot (A S B : List α) : List.Perm (A ++ (S ++ B)) (S ++ (A ++ B)) := by
  have h1 : A ++ (S ++ B) = (A ++ S) ++ B := (List.append_assoc A S B).symm
  have h2 : List.Perm ((A ++ S) ++ B) ((S ++ A) ++ B) :=
    (List.perm_append_comm).append_right B
  have h3 : (S ++ A) ++ B = S ++ (A ++ B) := List.append_assoc S A B
  rw [h1, ← h3]
  exact h2

theorem reorder_split (l : List α) (F C : Nat) :
    l = l.take F ++ ((l.drop F).take C ++ l.drop (F + C)) := by
  have h1 : (l.drop F).take C ++ (l.drop F).drop C = l.drop F :=
    List.take_append_drop C (l.drop F)
  have h2 : (l.drop F).drop C = l.drop (F + C) := by
    rw [List.drop_drop]
    try congr 1
    try omega
  rw [← h2] at *
  rw [h1]
  exact (List.take_append_drop F l).symm

theorem moved_perm (l : List PData) (F T C : Nat) :
    List.Perm
      ((l.take F ++ l.drop (F + C)).take T ++ ((l.drop F).take C ++
        (l.take F ++ l.drop (F + C)).drop T)) l := by
  have h1 : List.Perm
      ((l.take F ++ l.drop (F + C)).take T ++ ((l.drop F).take C ++
        (l.take F ++ l.drop (F + C)).drop T))
      ((l.drop F).take C ++ ((l.take F ++ l.drop (F + C)).take T ++
        (l.take F ++ l.drop (F + C)).drop T)) := perm_rot _ _ _
  rw [List.take_append_drop] at h1
  have h2 : List.Perm l ((l.drop F).take C ++ (l.take F ++ l.drop (F + C))) := by
    have e := reorder_split l F C
    have p := perm_rot (l.take F) ((l.drop F).take C) (l.drop (F + C))
    rw [← e] at p
    exact p
  exact h1.trans h2.symm

theorem moved_length (l : List PData) (F T C : Nat)
    (hF : F + C ≤ l.length) (hT : T + C ≤ l.length) :
    ((l.take F ++ l.drop (F + C)).take T ++ ((l.drop F).take C ++
      (l.take F ++ l.drop (F + C)).drop T)).length = l.length := by
  simp only [List.length_append, List.length_take, List.length_drop]
  omega

theorem moved_getElem_lo (l : List PData) (F T C j : Nat)
    (hF : F + C ≤ l.length) (hT : T + C ≤ l.length) (hjT : j < T) (hjF : j < F)
    (h1 : j < ((l.take F ++ l.drop (F + C)).take T ++ ((l.drop F).take C ++
      (l.take F ++ l.drop (F + C)).drop T)).length) (h2 : j < l.length) :
    ((l.take F ++ l.drop (F + C)).take T ++ ((l.drop F).take C ++
      (l.take F ++ l.drop (F + C)).drop T))[j] = l[j] := by
  have hrest : (l.take F ++ l.drop (F + C)).length = l.length - C := by
    simp only [List.length_append, List.length_take, List.length_drop]
    omega
  have hA : j < ((l.take F ++ l.drop (F + C)).take T).length := by
    simp only [List.length_take]
    omega
  rw [List.getElem_append_left hA]
  rw [List.getElem_take]
  have hjtake : j < (l.take F).length := by
    simp only [List.length_take]
    omega
  rw [List.getElem_append_left hjtake]
  exact List.getElem_take _

theorem moved_getElem_hi (l : List PData) (F T C j : Nat)
    (hF : F + C ≤ l.length) (hT : T + C ≤ l.length) (hjT : T + C ≤ j) (hjF : F + C ≤ j)
    (h1 : j < ((l.take F ++ l.drop (F + C)).take T ++ ((l.drop F).take C ++
      (l.take F ++ l.drop (F + C)).drop T)).length) (h2 : j < l.length) :
    ((l.take F ++ l.drop (F + C)).take T ++ ((l.drop F).take C ++
      (l.take F ++ l.drop (F + C)).drop T))[j] = l[j] := by
  have hrest : (l.take F ++ l.drop (F + C)).length = l.length - C := by
    simp only [List.length_append, List.length_take, List.length_drop]
    omega
  have hA : ((l.take F ++ l.drop (F + C)).take T).length = T := by
    simp only [List.length_take]
    omega
  have hge : ((l.take F ++ l.drop (F + C)).take T).length ≤ j := by omega
  rw [List.getElem_append_right hge]
  have hslice : ((l.drop F).take C).length = C := by
    simp only [List.length_take, List.length_drop]
    omega
  have hge2 : ((l.drop F).take C).length ≤ j - ((l.take F ++ l.drop (F + C)).take T).length := by
    omega
  rw [List.getElem_append_right hge2]
  have e1 : ∀ (k : Nat) (hk : k < ((l.take F ++ l.drop (F + C)).drop T).length),
      ((l.take F ++ l.drop (F + C)).drop T)[k] =
        getElem (l.take F ++ l.drop (F + C)) (T + k) (by
          simp only [List.length_drop] at hk
          omega) := by
    intro k hk
    exact List.getElem_drop _
  rw [e1]
  have harg : T + (j - ((l.take F ++ l.drop (F + C)).take T).length -
      ((l.drop F).take C).length) = j - C := by omega
  have e2 : getElem (l.take F ++ l.drop (F + C))
      (T + (j - ((l.take F ++ l.drop (F + C)).take T).length -
        ((l.drop F).take C).length)) (by
        simp only [List.length_drop] at *
        omega) =
      getElem (l.take F ++ l.drop (F + C)) (j - C) (by omega) := by
    congr 1
  rw [e2]
  have hgtake : (l.take F).length ≤ j - C := by
    simp only [List.length_take]
    omega
  rw [List.getElem_append_right hgtake]
  have e3 : ∀ (k : Nat) (hk : k < (l.drop (F + C)).length),
      (l.drop (F + C))[k] = getElem l (F + C + k) (by
        simp only [List.length_drop] at hk
        omega) := by
    intro k hk
    exact List.getElem_drop _
  rw [e3]
  congr 1
  simp only [List.length_take]
  omega

theorem indexedFrom_reorder_renumber (l : List PData) (F T C m len2 : Nat)
    (hF : F + C ≤ l.length) (hT : T + C ≤ l.length)
    (hmT : m ≤ T) (hmF : m ≤ F) (hTm : T + C ≤ m + len2) (hFm : F + C ≤ m + len2)
    (hidx : indexedFrom 0 l) :
    indexedFrom 0 (number_playlists m len2
      ((l.take F ++ l.drop (F + C)).take T ++ ((l.drop F).take C ++
        (l.take F ++ l.drop (F + C)).drop T))) := by
  rw [indexedFrom_iff]
  intro j hj
  have hml := moved_length l F T C hF hT
  have hj1 : j < ((l.take F ++ l.drop (F + C)).take T ++ ((l.drop F).take C ++
      (l.take F ++ l.drop (F + C)).drop T)).length := by
    rw [length_number_playlists] at hj
    exact hj
  rw [getElem_number_playlists _ _ _ _ hj hj1]
  by_cases hin : m ≤ j ∧ j < m + len2
  · rw [if_pos hin]
    simp
  · rw [if_neg hin]
    have hj2 : j < l.length := by omega
    have hstable : ((l.take F ++ l.drop (F + C)).take T ++ ((l.drop F).take C ++
        (l.take F ++ l.drop (F + C)).drop T))[j] = l[j] := by
      rcases not_and_or.mp hin with hlo | hhi
      · exact moved_getElem_lo l F T C j hF hT (by omega) (by omega) hj1 hj2
      · exact moved_getElem_hi l F T C j hF hT (by omega) (by omega) hj1 hj2
    rw [hstable]
    simpa using (indexedFrom_iff 0 l).mp hidx j hj2

theorem registryInvariant_reorder (s : GS) (src dst count : Int)
    (h : registryInvariant s) :
    registryInvariant (reorder_playlists s src dst count) := by
  unfold reorder_playlists
  split
  · exact h
  · next hguard =>
    dsimp only
    rw [List.append_assoc]
    refine registryInvariant_transport (regShape_queue_global_update _ _ _) ?_
    obtain ⟨h1, h2, h3, h4, h5, h6, h7, h8⟩ := h
    have hFC : src.toNat + count.toNat ≤ s.playlists.length := by omega
    have hTC : dst.toNat + count.toNat ≤ s.playlists.length := by omega
    have hperm0 := moved_perm s.playlists src.toNat dst.toNat count.toNat
    have hidx2 : indexedFrom 0 (if dst.toNat < src.toNat then
        number_playlists dst.toNat (src.toNat + count.toNat - dst.toNat)
          ((s.playlists.take src.toNat ++ s.playlists.drop (src.toNat + count.toNat)).take dst.toNat ++
            ((s.playlists.drop src.toNat).take count.toNat ++
              (s.playlists.take src.toNat ++ s.playlists.drop (src.toNat + count.toNat)).drop dst.toNat))
      else
        number_playlists src.toNat (dst.toNat + count.toNat - src.toNat)
          ((s.playlists.take src.toNat ++ s.playlists.drop (src.toNat + count.toNat)).take dst.toNat ++
            ((s.playlists.drop src.toNat).take count.toNat ++
              (s.playlists.take src.toNat ++ s.playlists.drop (src.toNat + count.toNat)).drop dst.toNat))) := by
      split
      · next hlt =>
        exact indexedFrom_reorder_renumber s.playlists src.toNat dst.toNat count.toNat
          dst.toNat (src.toNat + count.toNat - dst.toNat) hFC hTC
          (Nat.le_refl _) (by omega) (by omega) (by omega) h1
      · next hge =>
        exact indexedFrom_reorder_renumber s.playlists src.toNat dst.toNat count.toNat
          src.toNat (dst.toNat + count.toNat - src.toNat) hFC hTC
          (by omega) (Nat.le_refl _) (by omega) (by omega) h1
    have hmapstamp : (if dst.toNat < src.toNat then
          number_playlists dst.toNat (src.toNat + count.toNat - dst.toNat)
            ((s.playlists.take src.toNat ++ s.playlists.drop (src.toNat + count.toNat)).take dst.toNat ++
              ((s.playlists.drop src.toNat).take count.toNat ++
                (s.playlists.take src.toNat ++ s.playlists.drop (src.toNat + count.toNat)).drop dst.toNat))
        else
          number_playlists src.toNat (dst.toNat + count.toNat - src.toNat)
            ((s.playlists.take src.toNat ++ s.playlists.drop (src.toNat + count.toNat)).take dst.toNat ++
              ((s.playlists.drop src.toNat).take count.toNat ++
                (s.playlists.take src.toNat ++ s.playlists.drop (src.toNat + count.toNat)).drop dst.toNat))).map
          (fun p => p.stamp) =
        ((s.playlists.take src.toNat ++ s.playlists.drop (src.toNat + count.toNat)).take dst.toNat ++
          ((s.playlists.drop src.toNat).take count.toNat ++
            (s.playlists.take src.toNat ++ s.playlists.drop (src.toNat + count.toNat)).drop dst.toNat)).map
          fun p => p.stamp := by
      split <;> exact map_stamp_number_playlists _ _ _
    have hpermS : List.Perm ((if dst.toNat < src.toNat then
          number_playlists dst.toNat (src.toNat + count.toNat - dst.toNat)
            ((s.playlists.take src.toNat ++ s.playlists.drop (src.toNat + count.toNat)).take dst.toNat ++
              ((s.playlists.drop src.toNat).take count.toNat ++
                (s.playlists.take src.toNat ++ s.playlists.drop (src.toNat + count.toNat)).drop dst.toNat))
        else
          number_playlists src.toNat (dst.toNat + count.toNat - src.toNat)
            ((s.playlists.take src.toNat ++ s.playlists.drop (src.toNat + count.toNat)).take dst.toNat ++
              ((s.playlists.drop src.toNat).take count.toNat ++
                (s.playlists.take src.toNat ++ s.playlists.drop (src.toNat + count.toNat)).drop dst.toNat))).map
          fun p => p.stamp) (s.playlists.map fun p => p.stamp) := by
      rw [hmapstamp]
      exact hperm0.map fun p => p.stamp
    refine ⟨hidx2, h2, ?_, ?_, h5, ?_, ?_, ?_⟩
    · exact (hpermS.nodup_iff).mpr h3
    · intro st hst
      exact h4 st (hpermS.mem_iff.mp hst)
    · intro a ha
      exact hpermS.mem_iff.mpr (h6 a ha)
    · intro g hg
      exact hpermS.mem_iff.mpr (h7 g hg)
    · have hlen := hpermS.length_eq
      simp only [List.length_map] at hlen
      show 1 ≤ (if dst.toNat < src.toNat then
          number_playlists dst.toNat (src.toNat + count.toNat - dst.toNat)
            ((s.playlists.take src.toNat ++ s.playlists.drop (src.toNat + count.toNat)).take dst.toNat ++
              ((s.playlists.drop src.toNat).take count.toNat ++
                (s.playlists.take src.toNat ++ s.playlists.drop (src.toNat + count.toNat)).drop dst.toNat))
        else
          number_playlists src.toNat (dst.toNat + count.toNat - src.toNat)
            ((s.playlists.take src.toNat ++ s.playlists.drop (src.toNat + count.toNat)).take dst.toNat ++
              ((s.playlists.drop src.toNat).take count.toNat ++
                (s.playlists.take src.toNat ++ s.playlists.drop (src.toNat + count.toNat)).drop dst.toNat))).length
      omega

/-! ## Removal lemmas -/

theorem regShape_stop_playback (s : GS) :
    regShape (stop_playback_locked s) = regShape s := by
  unfold stop_playback_locked
  have h1 := regShape_scan_reset_playback { s with log := s.log ++ [Event.artClearCurrent] }
  refine Eq.trans (regShape_congr _ _ ?_ ?_ ?_ ?_) (Eq.trans h1 rfl) <;> rfl

theorem findByStamp_some {st : Nat} {l : List PData} {p : PData}
    (h : findByStamp st l = some p) : p ∈ l ∧ p.stamp = st := by
  induction l with
  | nil => simp [findByStamp] at h
  | cons q qs ih =>
    by_cases hq : q.stamp = st
    · rw [findByStamp, if_pos hq] at h
      cases h
      exact ⟨List.mem_cons_self _ _, hq⟩
    · rw [findByStamp, if_neg hq] at h
      obtain ⟨hm, hs⟩ := ih h
      exact ⟨List.mem_cons_of_mem _ hm, hs⟩

theorem mem_position (l : List PData) (p : PData) (hidx : indexedFrom 0 l)
    (hp : p ∈ l) : ∃ j, ∃ (hj : j < l.length), l[j] = p ∧ p.index = (j : Int) := by
  obtain ⟨j, hj, he⟩ := List.getElem_of_mem hp
  refine ⟨j, hj, he, ?_⟩
  rw [← he]
  simpa using (indexedFrom_iff 0 l).mp hidx j hj

theorem removeAtIdx_sublist (n : Nat) (l : List α) :
    List.Sublist (removeAtIdx n l) l := by
  induction l generalizing n with
  | nil => cases n <;> simp [removeAtIdx]
  | cons x xs ih =>
    cases n with
    | zero =>
      simp only [removeAtIdx]
      exact List.sublist_cons_self x xs
    | succ m =>
      simp only [removeAtIdx]
      exact List.Sublist.cons₂ x (ih m)

theorem mem_removeAtIdx_of_ne {l : List α} {j : Nat} (hj : j < l.length) {a : α}
    (ha : a ∈ l) (hne : a ≠ l[j]) : a ∈ removeAtIdx j l := by
  induction l generalizing j with
  | nil => simp at ha
  | cons x xs ih =>
    cases j with
    | zero =>
      simp only [removeAtIdx]
      rcases List.mem_cons.mp ha with rfl | hm
      · exact absurd rfl hne
      · exact hm
    | succ m =>
      simp only [removeAtIdx]
      rcases List.mem_cons.mp ha with rfl | hm
      · exact List.mem_cons_self _ _
      · exact List.mem_cons_of_mem _ (ih (by simpa using hj) hm (by simpa using hne))

theorem indexedFrom_remove_renumber (l : List PData) (j : Nat) (hj : j < l.length)
    (hidx : indexedFrom 0 l) :
    indexedFrom 0 (number_playlists j ((removeAtIdx j l).length - j) (removeAtIdx j l)) := by
  rw [indexedFrom_iff]
  intro i hi
  have hlen : (removeAtIdx j l).length = l.length - 1 := length_removeAtIdx j l hj
  have hi1 : i < (removeAtIdx j l).length := by
    rw [length_number_playlists] at hi
    exact hi
  rw [getElem_number_playlists _ _ _ _ hi hi1]
  by_cases hij : j ≤ i
  · have hup : i < j + ((removeAtIdx j l).length - j) := by omega
    rw [if_pos ⟨hij, hup⟩]
    simp
  · have hno : ¬ (j ≤ i ∧ i < j + ((removeAtIdx j l).length - j)) := by omega
    rw [if_neg hno]
    have his : i < l.length := by omega
    rw [getElem_removeAtIdx_lt j l i hi1 his (by omega)]
    simpa using (indexedFrom_iff 0 l).mp hidx i his

theorem remove_surgery_props (s : GS) (st : Nat) (p : PData) (j : Nat)
    (hj : j < s.playlists.length) (hgetp : s.playlists[j] = p)
    (hpidx : p.index = (j : Int)) (h1 : indexedFrom 0 s.playlists)
    (h2 : s.usedStamps.Nodup) (h3 : (s.playlists.map fun q => q.stamp).Nodup)
    (h4 : ∀ a ∈ s.playlists.map fun q => q.stamp, a ∈ s.usedStamps) :
    indexedFrom 0 (remove_surgery s st p).playlists ∧
    (remove_surgery s st p).usedStamps.Nodup ∧
    ((remove_surgery s st p).playlists.map fun q => q.stamp).Nodup ∧
    (∀ a ∈ (remove_surgery s st p).playlists.map fun q => q.stamp,
      a ∈ (remove_surgery s st p).usedStamps) ∧
    1 ≤ (remove_surgery s st p).playlists.length ∧
    (remove_surgery s st p).active = s.active ∧
    (remove_surgery s st p).playing = s.playing ∧
    (∀ a, a ∈ (s.playlists.map fun q => q.stamp) → a ≠ p.stamp →
      a ∈ (remove_surgery s st p).playlists.map fun q => q.stamp) := by
  have hatn : p.index.toNat = j := by
    rw [hpidx]
    simp
  have hrlen : (removeAtIdx j s.playlists).length = s.playlists.length - 1 :=
    length_removeAtIdx j s.playlists hj
  unfold remove_surgery
  dsimp only
  rw [hatn]
  by_cases hemp : (removeAtIdx j s.playlists).length = 0
  · -- the Registry became empty: a fresh default playlist is synthesized
    have hone : s.playlists.length = 1 := by omega
    have hj0 : j = 0 := by omega
    subst hj0
    have hnil : removeAtIdx 0 s.playlists = [] := List.length_eq_zero.mp hemp
    rw [if_pos hemp]
    obtain ⟨c1, c2, c3, c4, c5, c6⟩ := create_playlist_spec
      { s with
          playlists := removeAtIdx 0 s.playlists
          scanList := s.scanList.filter fun it => ¬ it.playlist == st } (-1)
    rw [c1]
    dsimp only
    rw [hnil]
    set cr := create_playlist
      { s with
          playlists := removeAtIdx 0 s.playlists
          scanList := s.scanList.filter fun it => ¬ it.playlist == st } (-1) with hcr
    have hb : 0 < s.playlists.length := by omega
    have hq : (s.playlists.map fun q => q.stamp)[0]? = some p.stamp := by
      rw [List.getElem?_map, List.getElem?_eq_getElem hb]
      simp [hgetp]
    have hmapold : s.playlists.map (fun q => q.stamp) = [p.stamp] := by
      obtain ⟨a, ha⟩ := List.length_eq_one.mp
        (show (s.playlists.map fun q => q.stamp).length = 1 by simpa using hone)
      rw [ha] at hq
      simp at hq
      rw [ha, hq]
    refine ⟨?_, ?_, ?_, ?_, ?_, ?_, ?_, ?_⟩
    · simp [number_playlists, renumberAux, indexedFrom]
    · show (cr.1.usedStamps).Nodup
      rw [c4]
      exact List.nodup_cons.mpr ⟨c5, h2⟩
    · simp [number_playlists, renumberAux]
    · intro a ha
      simp [number_playlists, renumberAux] at ha
      show a ∈ cr.1.usedStamps
      rw [c4, ha]
      exact List.mem_cons_self _ _
    · simp [number_playlists, renumberAux]
    · exact c2
    · exact c3
    · intro a ha hne
      rw [hmapold] at ha
      simp at ha
      exact absurd ha hne
  · rw [if_neg hemp]
    dsimp only
    have hmapr : (number_playlists j ((removeAtIdx j s.playlists).length - j)
        (removeAtIdx j s.playlists)).map (fun q => q.stamp) =
        removeAtIdx j (s.playlists.map fun q => q.stamp) := by
      rw [map_stamp_number_playlists, map_removeAtIdx]
    have hsub : List.Sublist (removeAtIdx j (s.playlists.map fun q => q.stamp))
        (s.playlists.map fun q => q.stamp) := removeAtIdx_sublist _ _
    refine ⟨?_, h2, ?_, ?_, ?_, rfl, rfl, ?_⟩
    · exact indexedFrom_remove_renumber s.playlists j hj h1
    · rw [hmapr]
      exact h3.sublist hsub
    · intro a ha
      rw [hmapr] at ha
      exact h4 a (mem_of_mem_removeAtIdx a j _ ha)
    · rw [length_number_playlists]
      omega
    · intro a ha hne
      rw [hmapr]
      have hjm : j < (s.playlists.map fun q => q.stamp).length := by simpa using hj
      refine mem_removeAtIdx_of_ne hjm ha ?_
      rw [List.getElem_map, hgetp]
      exact hne

theorem registryInvariant_remove_after (s3 : GS) (wasActive wasPlaying : Bool) (atN : Nat)
    (hA : indexedFrom 0 s3.playlists) (hB : s3.usedStamps.Nodup)
    (hC : (s3.playlists.map fun q => q.stamp).Nodup)
    (hD : ∀ a ∈ s3.playlists.map fun q => q.stamp, a ∈ s3.usedStamps)
    (hL : 1 ≤ s3.playlists.length)
    (hActF : wasActive = false → s3.active.isSome = true ∧
      ∀ a, s3.active = some a → a ∈ s3.playlists.map fun q => q.stamp)
    (hPlayF : wasPlaying = false → ∀ g, s3.playing = some g →
      g ∈ s3.playlists.map fun q => q.stamp) :
    registryInvariant (remove_after s3 wasActive wasPlaying atN) := by
  have hlt : min atN (s3.playlists.length - 1) < s3.playlists.length := by omega
  unfold remove_after
  cases wasActive with
  | false =>
    cases wasPlaying with
    | false =>
      simp only [Bool.false_eq_true, if_false]
      refine registryInvariant_transport (regShape_queue_global_update _ _ _) ?_
      exact ⟨hA, hB, hC, hD, (hActF rfl).1, (hActF rfl).2, hPlayF rfl, hL⟩
    | true =>
      simp only [Bool.false_eq_true, if_false, eq_self_iff_true, if_true]
      have hsh : regShape (queue_global_update
          (stop_playback_locked { s3 with playing := none }) .Structure 0) =
          regShape ({ s3 with playing := none } : GS) :=
        Eq.trans (regShape_queue_global_update _ _ _) (regShape_stop_playback _)
      refine registryInvariant_transport
        (Eq.trans (regShape_congr _ _ rfl rfl rfl rfl) hsh) ?_
      refine ⟨hA, hB, hC, hD, (hActF rfl).1, (hActF rfl).2, ?_, hL⟩
      intro g hg
      simp at hg
  | true =>
    rw [List.getElem?_eq_getElem hlt]
    simp only [Bool.false_eq_true, if_false, eq_self_iff_true, if_true]
    have hqmem : (getElem s3.playlists (min atN (s3.playlists.length - 1)) hlt).stamp ∈
        s3.playlists.map fun q => q.stamp :=
      List.mem_map_of_mem _ (List.getElem_mem hlt)
    cases wasPlaying with
    | false =>
      simp only [Bool.false_eq_true, if_false]
      refine registryInvariant_transport
        (Eq.trans (regShape_congr _ _ rfl rfl rfl rfl)
          (regShape_queue_global_update _ _ _)) ?_
      refine ⟨hA, hB, hC, hD, rfl, ?_, hPlayF rfl, hL⟩
      intro a ha
      have haa : (getElem s3.playlists (min atN (s3.playlists.length - 1)) hlt).stamp = a := by
        simpa using ha
      rw [← haa]
      exact hqmem
    | true =>
      simp only [eq_self_iff_true, if_true]
      have hsh : regShape (queue_global_update (stop_playback_locked
          { s3 with
            active := some (getElem s3.playlists (min atN (s3.playlists.length - 1)) hlt).stamp
            playing := none }) .Structure 0) =
          regShape ({ s3 with
            active := some (getElem s3.playlists (min atN (s3.playlists.length - 1)) hlt).stamp
            playing := none } : GS) :=
        Eq.trans (regShape_queue_global_update _ _ _) (regShape_stop_playback _)
      refine registryInvariant_transport
        (Eq.trans (regShape_congr _ _ rfl rfl rfl rfl) hsh) ?_
      refine ⟨hA, hB, hC, hD, rfl, ?_, ?_, hL⟩
      · intro a ha
        have haa : (getElem s3.playlists (min atN (s3.playlists.length - 1)) hlt).stamp = a := by
          simpa using ha
        rw [← haa]
        exact hqmem
      · intro g hg
        simp at hg

theorem registryInvariant_remove (s : GS) (h : Option Nat)
    (hinv : registryInvariant s) : registryInvariant (remove_playlist s h) := by
  unfold remove_playlist
  cases h with
  | none => exact hinv
  | some st =>
    show registryInvariant
      (match lookupLive s st with
      | none => s
      | some p => remove_playlist_locked s st p)
    cases hfind : lookupLive s st with
    | none => exact hinv
    | some p =>
      have hfind' : findByStamp st s.playlists = some p := hfind
      obtain ⟨hpmem, hpstamp⟩ := findByStamp_some hfind'
      obtain ⟨h1, h2, h3, h4, h5, h6, h7, h8⟩ := hinv
      obtain ⟨j, hj, hgetp, hpidx⟩ := mem_position s.playlists p h1 hpmem
      obtain ⟨rA, rB, rC, rD, rL, rAct, rPlay, rKeep⟩ :=
        remove_surgery_props s st p j hj hgetp hpidx h1 h2 h3 h4
      show registryInvariant (remove_playlist_locked s st p)
      unfold remove_playlist_locked
      apply registryInvariant_remove_after _ _ _ _ rA rB rC rD rL
      · intro hfalse
        have hne : ¬ s.active = some st := of_decide_eq_false hfalse
        constructor
        · rw [rAct]
          exact h5
        · intro a ha
          rw [rAct] at ha
          refine rKeep a (h6 a ha) ?_
          rw [hpstamp]
          intro heq
          apply hne
          rw [← heq]
          exact ha
      · intro hfalse g hg
        have hne : ¬ s.playing = some st := of_decide_eq_false hfalse
        rw [rPlay] at hg
        refine rKeep g (h7 g hg) ?_
        rw [hpstamp]
        intro heq
        apply hne
        rw [← heq]
        exact hg

theorem preInvariant_emptyGS : preInvariant emptyGS := by
  refine ⟨trivial, List.nodup_nil, List.nodup_nil, ?_, ?_, ?_⟩ <;> simp [emptyGS]

theorem registryInvariant_regStep (t : GS) (op : RegOp)
    (hi : registryInvariant t) : registryInvariant (regStep t op) := by
  cases op with
  | insertAt pos stamp =>
    exact preInvariant_insert t pos stamp (preInvariant_of_registryInvariant hi)
  | reorder src dst count => exact registryInvariant_reorder t src dst count hi
  | remove st => exact registryInvariant_remove t (some st) hi

/-- C2: after every sequence of create/insert/reorder/remove operations
following init, the Registry satisfies `registryInvariant`: for every index
`i`, `playlists[i].id ().index == i` (`indexedFrom 0`); all ID stamps are
unique; `active_id` (and `playing_id` when non-null) reference playlists
currently in the Registry; and the Registry length is at least 1. -/
theorem c2_registry_invariant_all_ops (ops : List RegOp) :
    registryInvariant (runRegOps ops) := by
  have hinit : registryInvariant initGS :=
    preInvariant_insert emptyGS 0 (-1) preInvariant_emptyGS
  have hfold : ∀ (l : List RegOp) (t : GS), registryInvariant t →
      registryInvariant (l.foldl regStep t) := by
    intro l
    induction l with
    | nil => intro t ht; exact ht
    | cons op rest ih =>
      intro t ht
      exact ih _ (registryInvariant_regStep t op ht)
  exact hfold ops initGS hinit

/-- Witness: the invariant holds after a concrete operation sequence
(insert at 1, reorder, then remove the initial playlist). -/
theorem c2_registry_invariant_all_ops_witness :
    registryInvariant (runRegOps
      [RegOp.insertAt 1 (-1), RegOp.insertAt 0 5000, RegOp.reorder 0 1 2,
       RegOp.remove 1000]) :=
  c2_registry_invariant_all_ops
    [RegOp.insertAt 1 (-1), RegOp.insertAt 0 5000, RegOp.reorder 0 1 2,
     RegOp.remove 1000]

/-! ## Log monotonicity: the event log only grows -/

def logExtends (t s : GS) : Prop := ∃ u, t.log = s.log ++ u

theorem logExtends_refl (s : GS) : logExtends s s :=
  ⟨[], (List.append_nil _).symm⟩

theorem logExtends_of_eq {t s : GS} (h : t.log = s.log) : logExtends t s :=
  ⟨[], by rw [h, List.append_nil]⟩

theorem logExtends_trans {u t s : GS} (h1 : logExtends u t) (h2 : logExtends t s) :
    logExtends u s := by
  obtain ⟨a, ha⟩ := h1
  obtain ⟨b, hb⟩ := h2
  exact ⟨b ++ a, by rw [ha, hb, List.append_assoc]⟩

theorem mem_log_of_logExtends {t s : GS} (h : logExtends t s) {e : Event}
    (he : e ∈ s.log) : e ∈ t.log := by
  obtain ⟨u, hu⟩ := h
  rw [hu]
  exact List.mem_append_left _ he

theorem logExtends_scan_queue_entry (s : GS) (st eIdx : Nat) (fp : Bool) :
    logExtends (scan_queue_entry s st eIdx fp) s := by
  unfold scan_queue_entry
  cases h : (lookupLive s st).bind fun p => p.entries[eIdx]? with
  | none => exact logExtends_refl s
  | some e =>
    cases fp with
    | false => exact ⟨[Event.scannerRequest s.nextRequest], by simp⟩
    | true => exact ⟨[], by simp⟩

theorem logExtends_scan_reset_playback (s : GS) :
    logExtends (scan_reset_playback s) s := by
  unfold scan_reset_playback
  cases h : s.scanList.find? fun it => it.for_playback with
  | none => exact logExtends_refl s
  | some item =>
    refine ⟨if item.handled_by_playback then [] else [Event.scannerRequest item.request], ?_⟩
    cases hh : item.handled_by_playback <;> simp [hh]

theorem logExtends_scan_check_complete (s : GS) (st : Nat) :
    logExtends (scan_check_complete s st) s := by
  unfold scan_check_complete
  by_cases hc : statusOf s st = some ScanStatus.ScanEnding ∧
      (s.scanList.find? fun it => it.playlist == st) = none
  · rw [if_pos hc]
    refine ⟨[Event.eventCancel "playlist scan complete",
      Event.eventQueued "playlist scan complete"], ?_⟩
    dsimp only
    split <;> rfl
  · rw [if_neg hc]
    exact logExtends_refl s

theorem logExtends_scanQueueNextAux (fuel : Nat) (s : GS) :
    logExtends (scanQueueNextAux fuel s).1 s := by
  induction fuel generalizing s with
  | zero => exact logExtends_refl s
  | succ f ih =>
    unfold scanQueueNextAux
    by_cases h : s.scanPlaylist < s.playlists.length
    · simp only [h, dite_true]
      set p := s.playlists.get ⟨s.scanPlaylist, h⟩ with hp
      by_cases hst : p.scanStatus = .ScanActive
      · simp only [hst, if_true, ite_true]
        cases hwalk : scanWalkAux s p.stamp p.entries (p.entries.length + 1) s.scanRow with
        | some r =>
          simp only [hwalk]
          exact logExtends_scan_queue_entry { s with scanRow := r } p.stamp r false
        | none =>
          simp only [hwalk]
          refine logExtends_trans (ih _) ?_
          refine logExtends_trans (logExtends_of_eq rfl) ?_
          exact logExtends_scan_check_complete
            (modifyIdxGS s s.scanPlaylist fun q => { q with scanStatus := .ScanEnding }) p.stamp
      · simp only [hst, if_false, ite_false]
        exact logExtends_trans (ih _) (logExtends_refl s)
    · simp only [h, dite_false]
      exact logExtends_refl s

theorem logExtends_scan_queue_next_entry (s : GS) :
    logExtends (scan_queue_next_entry s).1 s := by
  unfold scan_queue_next_entry
  by_cases h : s.scanEnabled
  · simp only [h, not_true, if_false, ite_false, ite_true]
    exact logExtends_scanQueueNextAux _ s
  · simp [h, logExtends_refl]

theorem logExtends_scanScheduleLoop (fuel : Nat) (s : GS) :
    logExtends (scanScheduleLoop fuel s) s := by
  induction fuel generalizing s with
  | zero => exact logExtends_refl s
  | succ f ih =>
    unfold scanScheduleLoop
    cases hq : scan_queue_next_entry s with
    | mk s' b =>
      have hext : logExtends s' s := by
        have := logExtends_scan_queue_next_entry s
        rw [hq] at this
        exact this
      cases b with
      | true => exact logExtends_trans (ih s') hext
      | false => exact hext

theorem logExtends_scan_schedule (s : GS) :
    logExtends (scan_schedule s) s := by
  unfold scan_schedule
  split
  · exact logExtends_refl s
  · exact logExtends_scanScheduleLoop _ s

theorem logExtends_scan_restart (s : GS) :
    logExtends (scan_restart s) s := by
  unfold scan_restart
  exact logExtends_scan_schedule { s with scanPlaylist := 0, scanRow := 0 }

theorem logExtends_queue_global_update (s : GS) (level : UpdateLevel) (flags : Nat) :
    logExtends (queue_global_update s level flags) s := by
  unfold queue_global_update
  have h1 : logExtends (if level = UpdateLevel.Structure then scan_restart s else s) s := by
    split
    · exact logExtends_scan_restart s
    · exact logExtends_refl s
  refine logExtends_trans (logExtends_of_eq ?_) h1
  dsimp only
  repeat' split
  all_goals rfl

/-! ## C3: effect of removal on the active / playing playlist -/

theorem stop_playback_log_mem (s : GS) :
    Event.playbackStop ∈ (stop_playback_locked s).log := by
  unfold stop_playback_locked
  exact List.mem_append_right _ (by simp)

theorem remove_after_active_spec (s3 : GS) (wp : Bool) (atN : Nat)
    (hlt : min atN (s3.playlists.length - 1) < s3.playlists.length) :
    (remove_after s3 true wp atN).active =
      some (s3.playlists.get ⟨min atN (s3.playlists.length - 1), hlt⟩).stamp ∧
    ((remove_after s3 true wp atN).playlists.map fun q => q.stamp) =
      s3.playlists.map fun q => q.stamp := by
  unfold remove_after
  rw [List.getElem?_eq_getElem hlt]
  cases wp with
  | false =>
    simp only [Bool.false_eq_true, if_false, eq_self_iff_true, if_true]
    have hsh : regShape (queue_global_update
        ({ s3 with active := some (getElem s3.playlists (min atN (s3.playlists.length - 1)) hlt).stamp } : GS)
        .Structure 0) =
        regShape ({ s3 with active := some (getElem s3.playlists (min atN (s3.playlists.length - 1)) hlt).stamp } : GS) :=
      regShape_queue_global_update _ _ _
    obtain ⟨hs, _, _, _, hact, _⟩ := regShape_fields hsh
    exact ⟨hact, hs⟩
  | true =>
    simp only [eq_self_iff_true, if_true]
    have hsh : regShape (queue_global_update (stop_playback_locked
        ({ s3 with active := some (getElem s3.playlists (min atN (s3.playlists.length - 1)) hlt).stamp, playing := none } : GS)) .Structure 0) =
        regShape ({ s3 with active := some (getElem s3.playlists (min atN (s3.playlists.length - 1)) hlt).stamp, playing := none } : GS) :=
      Eq.trans (regShape_queue_global_update _ _ _) (regShape_stop_playback _)
    obtain ⟨hs, _, _, _, hact, _⟩ := regShape_fields hsh
    exact ⟨hact, hs⟩

theorem remove_after_playing_spec (s3 : GS) (wa : Bool) (atN : Nat) :
    (remove_after s3 wa true atN).playing = none ∧
    Event.playbackStop ∈ (remove_after s3 wa true atN).log := by
  unfold remove_after
  cases wa with
  | false =>
    simp only [Bool.false_eq_true, if_false, eq_self_iff_true, if_true]
    constructor
    · have hsh : regShape (queue_global_update (stop_playback_locked
          ({ s3 with playing := none } : GS)) .Structure 0) =
          regShape ({ s3 with playing := none } : GS) :=
        Eq.trans (regShape_queue_global_update _ _ _) (regShape_stop_playback _)
      exact (regShape_fields hsh).2.2.2.2.2
    · refine List.mem_append_left _ ?_
      exact mem_log_of_logExtends (logExtends_queue_global_update _ _ _)
        (stop_playback_log_mem _)
  | true =>
    cases hq : s3.playlists[min atN (s3.playlists.length - 1)]? with
    | none =>
      simp only [eq_self_iff_true, if_true]
      constructor
      · have hsh : regShape (queue_global_update (stop_playback_locked
            ({ s3 with playing := none } : GS)) .Structure 0) =
            regShape ({ s3 with playing := none } : GS) :=
          Eq.trans (regShape_queue_global_update _ _ _) (regShape_stop_playback _)
        exact (regShape_fields hsh).2.2.2.2.2
      · refine List.mem_append_left _ (List.mem_append_left _ ?_)
        exact mem_log_of_logExtends (logExtends_queue_global_update _ _ _)
          (stop_playback_log_mem _)
    | some q =>
      simp only [eq_self_iff_true, if_true]
      constructor
      · have hsh : regShape (queue_global_update (stop_playback_locked
            ({ s3 with active := some q.stamp, playing := none } : GS)) .Structure 0) =
            regShape ({ s3 with active := some q.stamp, playing := none } : GS) :=
          Eq.trans (regShape_queue_global_update _ _ _) (regShape_stop_playback _)
        exact (regShape_fields hsh).2.2.2.2.2
      · refine List.mem_append_left _ (List.mem_append_left _ ?_)
        exact mem_log_of_logExtends (logExtends_queue_global_update _ _ _)
          (stop_playback_log_mem _)

theorem map_congr_get {α β : Type _} {f : α → β} {l1 l2 : List α}
    (h : l1.map f = l2.map f) (i : Nat) (h1 : i < l1.length) (h2 : i < l2.length) :
    f (l1.get ⟨i, h1⟩) = f (l2.get ⟨i, h2⟩) := by
  have hq := congrArg (fun l => l[i]?) h
  simp only [List.getElem?_map] at hq
  rw [List.getElem?_eq_getElem h1, List.getElem?_eq_getElem h2] at hq
  simpa using hq

/-- A concrete two-playlist state: stamps 1000 (index 0, active and
playing) and 1001 (index 1). -/
def c3P : PData := { newPData 1000 with index := 0 }

def c3S : GS :=
  { emptyGS with
    usedStamps := [1001, 1000]
    nextStamp := 1001
    playlists := [c3P, { newPData 1001 with index := 1 }]
    active := some 1000
    playing := some 1000 }

/-- C3: `remove_playlist` on the active playlist moves `active_id` to the
playlist now occupying the removed index, clamped to the last valid index
(a fresh playlist having been synthesized first if the Registry became
empty); `remove_playlist` on the playing playlist clears `playing_id` and
stops playback (an `Event.playbackStop` is emitted). -/
theorem c3_remove_active_playing (s : GS) (st : Nat) (p : PData)
    (hinv : registryInvariant s) (hfind : lookupLive s st = some p) :
    (s.active = some st →
      ∃ hlt : min p.index.toNat ((remove_playlist s (some st)).playlists.length - 1) <
          (remove_playlist s (some st)).playlists.length,
        (remove_playlist s (some st)).active =
          some ((remove_playlist s (some st)).playlists.get
            ⟨min p.index.toNat ((remove_playlist s (some st)).playlists.length - 1),
              hlt⟩).stamp) ∧
    (s.playing = some st →
      (remove_playlist s (some st)).playing = none ∧
      Event.playbackStop ∈ (remove_playlist s (some st)).log) := by
  obtain ⟨h1, h2, h3, h4, h5, h6, h7, h8⟩ := hinv
  have hfind' : findByStamp st s.playlists = some p := hfind
  obtain ⟨hpmem, hpstamp⟩ := findByStamp_some hfind'
  obtain ⟨j, hj, hgetp, hpidx⟩ := mem_position s.playlists p h1 hpmem
  obtain ⟨rA, rB, rC, rD, rL, rAct, rPlay, rKeep⟩ :=
    remove_surgery_props s st p j hj hgetp hpidx h1 h2 h3 h4
  have hred : remove_playlist s (some st) =
      remove_after (remove_surgery s st p) (decide (s.active = some st))
        (decide (s.playing = some st)) p.index.toNat := by
    show (match lookupLive s st with
      | none => s
      | some q => remove_playlist_locked s st q) =
      remove_after (remove_surgery s st p) (decide (s.active = some st))
        (decide (s.playing = some st)) p.index.toNat
    rw [hfind]
    rfl
  rw [hred]
  constructor
  · intro hact
    have hwa : decide (s.active = some st) = true := by simp [hact]
    rw [hwa]
    have hlt3 : min p.index.toNat ((remove_surgery s st p).playlists.length - 1) <
        (remove_surgery s st p).playlists.length := by omega
    obtain ⟨ha, hmap⟩ := remove_after_active_spec (remove_surgery s st p)
      (decide (s.playing = some st)) p.index.toNat hlt3
    have hlen : (remove_after (remove_surgery s st p) true
        (decide (s.playing = some st)) p.index.toNat).playlists.length =
        (remove_surgery s st p).playlists.length := by
      have hc := congrArg List.length hmap
      simpa using hc
    have hltr : min p.index.toNat ((remove_after (remove_surgery s st p) true
        (decide (s.playing = some st)) p.index.toNat).playlists.length - 1) <
        (remove_after (remove_surgery s st p) true
          (decide (s.playing = some st)) p.index.toNat).playlists.length := by
      omega
    refine ⟨hltr, ?_⟩
    rw [ha]
    have hkr : min p.index.toNat ((remove_after (remove_surgery s st p) true
        (decide (s.playing = some st)) p.index.toNat).playlists.length - 1) =
        min p.index.toNat ((remove_surgery s st p).playlists.length - 1) := by
      omega
    have hltr3 : min p.index.toNat ((remove_surgery s st p).playlists.length - 1) <
        (remove_after (remove_surgery s st p) true
          (decide (s.playing = some st)) p.index.toNat).playlists.length := by
      omega
    have hst := map_congr_get hmap
      (min p.index.toNat ((remove_surgery s st p).playlists.length - 1)) hltr3 hlt3
    have hidx : (remove_after (remove_surgery s st p) true
        (decide (s.playing = some st)) p.index.toNat).playlists.get
          ⟨min p.index.toNat ((remove_after (remove_surgery s st p) true
            (decide (s.playing = some st)) p.index.toNat).playlists.length - 1), hltr⟩ =
        (remove_after (remove_surgery s st p) true
          (decide (s.playing = some st)) p.index.toNat).playlists.get
          ⟨min p.index.toNat ((remove_surgery s st p).playlists.length - 1), hltr3⟩ := by
      congr 1
      exact Fin.ext hkr
    rw [hidx]
    exact congrArg Option.some hst.symm
  · intro hplay
    have hwp : decide (s.playing = some st) = true := by simp [hplay]
    rw [hwp]
    exact remove_after_playing_spec (remove_surgery s st p)
      (decide (s.active = some st)) p.index.toNat

/-- C3 witness at `c3S`: removing the active-and-playing playlist 1000
reseats `active` and clears `playing` with a playback stop. -/
theorem c3_remove_active_playing_witness :
    (c3S.active = some 1000 →
      ∃ hlt : min c3P.index.toNat ((remove_playlist c3S (some 1000)).playlists.length - 1) <
          (remove_playlist c3S (some 1000)).playlists.length,
        (remove_playlist c3S (some 1000)).active =
          some ((remove_playlist c3S (some 1000)).playlists.get
            ⟨min c3P.index.toNat ((remove_playlist c3S (some 1000)).playlists.length - 1),
              hlt⟩).stamp) ∧
    (c3S.playing = some 1000 →
      (remove_playlist c3S (some 1000)).playing = none ∧
      Event.playbackStop ∈ (remove_playlist c3S (some 1000)).log) := by
  refine c3_remove_active_playing c3S 1000 c3P ?_ rfl
  refine ⟨by decide, by decide, by decide, by decide, by decide, ?_, ?_, by decide⟩
  · intro a ha
    have ha2 : (some 1000 : Option Nat) = some a := ha
    injection ha2 with h2
    subst h2
    decide
  · intro g hg
    have hg2 : (some 1000 : Option Nat) = some g := hg
    injection hg2 with h2
    subst h2
    decide

/-! ## C6: scan_finish on a cancelled request -/

/-- C6: if `scan_finish` is called with a request id for which no
`ScanItem` exists in the scan list (the scan was cancelled, e.g. by entry
deletion), the whole state — playlists, scan and update bookkeeping — is
left unchanged. -/
theorem c6_scan_finish_cancelled_noop (s : GS) (request : Nat)
    (h : s.scanList.find? (fun it => it.request == request) = none) :
    scan_finish s request = s := by
  unfold scan_finish
  rw [h]

/-- C6 witness: a completion callback for request 7 against the initial
state (whose scan list is empty) changes nothing. -/
theorem c6_scan_finish_cancelled_noop_witness :
    scan_finish initGS 7 = initGS :=
  c6_scan_finish_cancelled_noop initGS 7 (by decide)

/-! ## C5: the update flags computed by scan_finish -/

/-- C5 counterexample: with scanning disabled globally
(`scan_enabled = false`) but the playlist still mid-scan
(`ScanActive ≠ NotScanning`), `scan_finish` passes flags `0`, not
`DelayedUpdate` — the claim's "iff scanning is still in progress for that
playlist" misses the `scan_enabled` conjunct. -/
theorem c5_scan_finish_flags_counterexample :
    ScanStatus.ScanActive ≠ ScanStatus.NotScanning ∧
    scanFinishFlags false ScanStatus.ScanActive = 0 ∧
    scanFinishFlags false ScanStatus.ScanActive ≠ DelayedUpdateFlag := by
  decide

/-- C5 (amended): the update flags passed to `update_entry_from_scan`
equal `DelayedUpdate` iff scanning is enabled globally AND the playlist's
scan status is not `NotScanning`; otherwise they are `0`. -/
theorem c5_scan_finish_flags_amended (e : Bool) (st : ScanStatus) :
    (scanFinishFlags e st = DelayedUpdateFlag ↔
      e = true ∧ st ≠ ScanStatus.NotScanning) ∧
    (scanFinishFlags e st = DelayedUpdateFlag ∨ scanFinishFlags e st = 0) := by
  cases e <;> cases st <;> decide

/-! ## C10: save never writes resume-state Stop -/

theorem mem_catMap {f : α → List β} {b : β} {l : List α} :
    b ∈ catMap f l ↔ ∃ a ∈ l, b ∈ f a := by
  induction l with
  | nil => simp [catMap]
  | cons x xs ih => simp [catMap, List.mem_append, ih]

theorem resumeState_mem_saveRow (playing : Option Nat) (paused : Bool)
    (time : Int) (p : PData) (n : Nat) :
    StateLine.resumeStateL n ∈ saveRow playing paused time p ↔
      n = (if playing = some p.stamp ∧ paused then ResumePause else ResumePlay) := by
  unfold saveRow
  cases hf : p.filename <;> simp [List.mem_append, eq_comm]

/-- C10: `playlist_save_state` never writes resume-state `Stop` (0): every
resume-state line carries `Play` (1) or `Pause` (2), and within a
playlist's block the value is `Pause` exactly when that playlist is the
playing one and playback is paused. -/
theorem c10_save_resume_state (s : GS) (paused : Bool) (time : Int) :
    (∀ n, StateLine.resumeStateL n ∈ playlist_save_state_lines s paused time →
      n ≠ ResumeStop ∧ (n = ResumePlay ∨ n = ResumePause)) ∧
    (∀ p ∈ s.playlists, ∀ n,
      StateLine.resumeStateL n ∈ saveRow s.playing paused time p →
      (n = ResumePause ↔ s.playing = some p.stamp ∧ paused = true)) := by
  constructor
  · intro n hn
    unfold playlist_save_state_lines at hn
    simp only [List.mem_cons] at hn
    rcases hn with h | h | h
    · cases h
    · cases h
    · obtain ⟨p, hp, hrow⟩ := mem_catMap.mp h
      rw [resumeState_mem_saveRow] at hrow
      subst hrow
      split <;> decide
  · intro p hp n hn
    rw [resumeState_mem_saveRow] at hn
    subst hn
    by_cases hc : s.playing = some p.stamp ∧ paused = true
    · rw [if_pos (by exact ⟨hc.1, hc.2⟩)]
      simp [hc]
    · rw [if_neg (by intro hand; exact hc ⟨hand.1, by simp [hand.2]⟩)]
      constructor
      · intro hbad
        exact absurd hbad (by decide)
      · intro hand
        exact absurd hand hc

/-- C10 witness at `c3S` (playing = playlist 1000) with playback paused:
the block of playlist 1000 carries `Pause`, the other `Play`, and no line
carries `Stop`. -/
theorem c10_save_resume_state_witness :
    (∀ n, StateLine.resumeStateL n ∈ playlist_save_state_lines c3S true 5 →
      n ≠ ResumeStop ∧ (n = ResumePlay ∨ n = ResumePause)) ∧
    (∀ p ∈ c3S.playlists, ∀ n,
      StateLine.resumeStateL n ∈ saveRow c3S.playing true 5 p →
      (n = ResumePause ↔ c3S.playing = some p.stamp ∧ true = true)) :=
  c10_save_resume_state c3S true 5

/-! ## C1: dead-handle calls are neutral no-ops -/

/-- C1: every public Playlist operation invoked through a handle whose ID
record no longer has data (the playlist was deleted) performs no state
change and returns the neutral value of its result type: 0 for counts, -1
for index/position/stamp, false for booleans, empty or null
String/Tuple/pointer. -/
theorem c1_dead_handle_neutral (s : GS) (st : Nat) (title : String)
    (fn : Option String) (pos num : Int)
    (hdead : lookupLive s st = none) :
    playlist_n_entries s (some st) = (0, s) ∧
    playlist_get_position s (some st) = (-1, s) ∧
    playlist_get_focus s (some st) = (-1, s) ∧
    playlist_index s (some st) = (-1, s) ∧
    playlist_stamp s (some st) = (-1, s) ∧
    playlist_get_title s (some st) = ("", s) ∧
    playlist_get_filename s (some st) = (none, s) ∧
    playlist_get_modified s (some st) = (false, s) ∧
    playlist_update_pending s (some st) = (false, s) ∧
    playlist_scan_in_progress s (some st) = (false, s) ∧
    playlist_n_queued s (some st) = (0, s) ∧
    playlist_queue_get_entry s (some st) pos = (-1, s) ∧
    playlist_entry_filename s (some st) num = (none, s) ∧
    playlist_set_title s (some st) title = s ∧
    playlist_set_filename s (some st) fn = s ∧
    playlist_activate s (some st) = s ∧
    playlist_rescan_all s (some st) = s ∧
    get_entry_nowait s (some st) num = none ∧
    playlist_entry_decoder_nowait s (some st) num = (none, s) ∧
    playlist_entry_tuple_nowait s (some st) num = (emptyTuple, s) := by
  have hder : derefHandle s (some st) = none := by
    simp [derefHandle, hdead]
  refine ⟨?_, ?_, ?_, ?_, ?_, ?_, ?_, ?_, ?_, ?_, ?_, ?_, ?_, ?_, ?_, ?_, ?_,
    ?_, ?_, ?_⟩ <;>
    simp [playlist_n_entries, playlist_get_position, playlist_get_focus,
      playlist_index, playlist_stamp, playlist_get_title, playlist_get_filename,
      playlist_get_modified, playlist_update_pending, playlist_scan_in_progress,
      playlist_n_queued, playlist_queue_get_entry, playlist_entry_filename,
      playlist_set_title, playlist_set_filename, playlist_activate,
      playlist_rescan_all, get_entry_nowait, playlist_entry_decoder_nowait,
      playlist_entry_tuple_nowait, derefHandle, hdead]

/-- C1 witness: stamp 999 never designated a playlist of the initial
state, so all calls through it are neutral. -/
theorem c1_dead_handle_neutral_witness :
    lookupLive initGS 999 = none ∧
    (playlist_n_entries initGS (some 999) = (0, initGS) ∧
    playlist_get_position initGS (some 999) = (-1, initGS) ∧
    playlist_get_focus initGS (some 999) = (-1, initGS) ∧
    playlist_index initGS (some 999) = (-1, initGS) ∧
    playlist_stamp initGS (some 999) = (-1, initGS) ∧
    playlist_get_title initGS (some 999) = ("", initGS) ∧
    playlist_get_filename initGS (some 999) = (none, initGS) ∧
    playlist_get_modified initGS (some 999) = (false, initGS) ∧
    playlist_update_pending initGS (some 999) = (false, initGS) ∧
    playlist_scan_in_progress initGS (some 999) = (false, initGS) ∧
    playlist_n_queued initGS (some 999) = (0, initGS) ∧
    playlist_queue_get_entry initGS (some 999) 0 = (-1, initGS) ∧
    playlist_entry_filename initGS (some 999) 0 = (none, initGS) ∧
    playlist_set_title initGS (some 999) "t" = initGS ∧
    playlist_set_filename initGS (some 999) none = initGS ∧
    playlist_activate initGS (some 999) = initGS ∧
    playlist_rescan_all initGS (some 999) = initGS ∧
    get_entry_nowait initGS (some 999) 0 = none ∧
    playlist_entry_decoder_nowait initGS (some 999) 0 = (none, initGS) ∧
    playlist_entry_tuple_nowait initGS (some 999) 0 = (emptyTuple, initGS)) :=
  ⟨by decide, c1_dead_handle_neutral initGS 999 "t" none 0 0 (by decide)⟩

/-! ## C9: the get_entry wait loop queues at most one scan and terminates -/

theorem getEntryIter_started_not_queued (nd nt : Bool) (v : GetView) :
    getEntryIter nd nt true v = .ret false ∨ getEntryIter nd nt true v = .wait false := by
  unfold getEntryIter
  repeat' split
  all_goals simp_all

theorem getEntryQueueCount_started (nd nt : Bool) (vs : List GetView) :
    getEntryQueueCount nd nt true vs = 0 := by
  induction vs with
  | nil => rfl
  | cons v vs ih =>
    unfold getEntryQueueCount
    rcases getEntryIter_started_not_queued nd nt v with h | h <;> rw [h] <;> simp [ih]

/-- First concrete wakeup view for the C9 witness: entry present but
unscanned and not in the scan list (the loop queues a scan and waits). -/
def c9V1 : GetView :=
  { dataLive := true, entryExists := true, isStdin := false
    hasDecoder := false, tupleValid := false, inScanList := false }

/-- Second concrete wakeup view: still unscanned, item gone again (the
loop returns rather than queueing a second scan). -/
def c9V2 : GetView :=
  { dataLive := true, entryExists := true, isStdin := false
    hasDecoder := false, tupleValid := false, inScanList := false }

/-- C9: over every sequence of states the `get_entry` wait loop observes,
starting with `scan_started = false`, at most one `scan_queue_entry` call
is made; and an iteration returns (instead of waiting on the condition
variable) exactly when the playlist is gone, the entry is gone or
blacklisted, the requested decoder/tuple data is present, or the scan item
is gone from the scan list after a scan was already started once — so the
loop always makes forward progress. -/
theorem c9_get_entry_once_and_progress (nd nt ss : Bool) (vs : List GetView)
    (v : GetView) :
    getEntryQueueCount nd nt false vs ≤ 1 ∧
    ((getEntryIter nd nt ss v).isRet = true ↔
      (v.dataLive = false ∨ v.entryExists = false ∨ v.isStdin = true ∨
        ((nd = false ∨ v.hasDecoder = true) ∧ (nt = false ∨ v.tupleValid = true)) ∨
        (v.inScanList = false ∧ ss = true))) := by
  constructor
  · cases vs with
    | nil => simp [getEntryQueueCount]
    | cons w ws =>
      unfold getEntryQueueCount
      cases h : getEntryIter nd nt false w with
      | ret q => cases q <;> simp
      | wait q => rw [getEntryQueueCount_started]; cases q <;> simp
  · obtain ⟨d, e, sdn, hd, tv, sc⟩ := v
    unfold getEntryIter IterOut.isRet
    cases d <;> cases e <;> cases sdn <;> cases hd <;> cases tv <;> cases sc <;>
      cases nd <;> cases nt <;> cases ss <;> decide

/-- C9 witness: over the two concrete wakeups `c9V1, c9V2` the loop
queues exactly one scan (≤ 1), and with `scan_started` already true the
iteration on `c9V2` resolves per the return condition. -/
theorem c9_get_entry_once_and_progress_witness :
    getEntryQueueCount true true false [c9V1, c9V2] ≤ 1 ∧
    ((getEntryIter true true true c9V2).isRet = true ↔
      (c9V2.dataLive = false ∨ c9V2.entryExists = false ∨ c9V2.isStdin = true ∨
        ((true = false ∨ c9V2.hasDecoder = true) ∧
          (true = false ∨ c9V2.tupleValid = true)) ∨
        (c9V2.inScanList = false ∧ true = true))) :=
  c9_get_entry_once_and_progress true true true [c9V1, c9V2] c9V2

/-! ## C7: playback_entry_set_tuple and the cuesheet guard -/

theorem findByStamp_modifyFirstBy (st : Nat) (f : PData → PData) (l : List PData)
    (hf : ∀ p, (f p).stamp = p.stamp) :
    findByStamp st (modifyFirstBy (fun p => p.stamp == st) f l) =
      (findByStamp st l).map f := by
  induction l with
  | nil => rfl
  | cons q qs ih =>
    by_cases hq : q.stamp = st
    · rw [modifyFirstBy, if_pos (by simpa using hq)]
      rw [findByStamp, if_pos (by rw [hf]; exact hq)]
      rw [findByStamp, if_pos hq]
      rfl
    · rw [modifyFirstBy, if_neg (by simpa using hq)]
      rw [findByStamp, if_neg hq, findByStamp, if_neg hq]
      exact ih

theorem lookupLive_modifyPData_self (s : GS) (st : Nat) (f : PData → PData)
    (hf : ∀ p, (f p).stamp = p.stamp) :
    lookupLive (modifyPData s st f) st = (lookupLive s st).map f :=
  findByStamp_modifyFirstBy st f s.playlists hf

theorem lookupLive_congr {t s : GS} (h : t.playlists = s.playlists) (st : Nat) :
    lookupLive t st = lookupLive s st := by
  unfold lookupLive
  rw [h]

theorem playlists_queue_global_update_metadata (s : GS) (flags : Nat) :
    (queue_global_update s .Metadata flags).playlists = s.playlists := by
  unfold queue_global_update
  rw [if_neg (by decide : ¬ (UpdateLevel.Metadata = UpdateLevel.Structure))]
  dsimp only
  repeat' split
  all_goals rfl

theorem getElem?_modifyIdx_self (f : α → α) (n : Nat) (l : List α) :
    (modifyIdx f n l)[n]? = (l[n]?).map f := by
  induction l generalizing n with
  | nil => cases n <;> rfl
  | cons a as ih =>
    cases n with
    | zero => simp [modifyIdx]
    | succ m => simpa [modifyIdx] using ih m

theorem mergeURec_metadata_ne (u : URec) (lo c : Nat) :
    (mergeURec u .Metadata lo c).level ≠ UpdateLevel.NoUpdate := by
  unfold mergeURec
  split
  · simp
  · obtain ⟨lvl, ulo, uc⟩ := u
    cases lvl <;> simp [levelMax] <;> decide

theorem lookupLive_pd_queue_update_metadata (s : GS) (st : Nat) (lo c fl : Nat) :
    lookupLive (pd_queue_update s st .Metadata lo c fl) st =
      (lookupLive s st).map fun p =>
        { p with pendingUpdate := mergeURec p.pendingUpdate .Metadata lo c
                 modified := true } := by
  unfold pd_queue_update
  cases hl : lookupLive s st with
  | none => simpa using hl
  | some p =>
    dsimp only
    have hl1 : lookupLive (modifyPData s st fun q =>
        { q with pendingUpdate := mergeURec q.pendingUpdate .Metadata lo c }) st =
        some { p with pendingUpdate := mergeURec p.pendingUpdate .Metadata lo c } := by
      rw [lookupLive_modifyPData_self s st
        (fun q => { q with pendingUpdate := mergeURec q.pendingUpdate .Metadata lo c })
        (fun q => rfl), hl]
      rfl
    unfold pl_signal_update_queued
    rw [hl1]
    dsimp only
    rw [if_neg (by decide : ¬ (UpdateLevel.Metadata = UpdateLevel.Structure))]
    rw [if_pos (by decide : UpdateLevel.Metadata.toNat ≤ UpdateLevel.Metadata.toNat)]
    rw [hl1]
    dsimp only
    have hfin : ∀ (x : GS), x.playlists = (modifyPData s st fun q =>
        { q with pendingUpdate := mergeURec q.pendingUpdate .Metadata lo c }).playlists →
        lookupLive (queue_global_update
          (modifyPData x st fun q => { q with modified := true }) .Metadata fl) st =
        some { p with pendingUpdate := mergeURec p.pendingUpdate .Metadata lo c
                      modified := true } := by
      intro x hx
      rw [lookupLive_congr (playlists_queue_global_update_metadata _ _) st]
      rw [lookupLive_modifyPData_self x st (fun q => { q with modified := true })
        (fun q => rfl)]
      rw [lookupLive_congr hx st, hl1]
      rfl
    split
    · split
      · exact hfin _ rfl
      · exact hfin _ rfl
    · exact hfin _ rfl

/-- A playing entry whose tuple has `Tuple::StartTime` set to 0: a
cuesheet entry starting at the very beginning of its file. -/
def c7E : EntryD :=
  { filename := "song.flac", decoder := some 1
    tuple := { valid := true, startTime := some 0, content := 1 } }

def c7P : PData := { newPData 1000 with index := 0, entries := [c7E], position := 0 }

def c7S : GS :=
  { emptyGS with
    usedStamps := [1000]
    playlists := [c7P]
    active := some 1000
    playing := some 1000
    currentSerial := some 3 }

/-- A fresh stream-metadata tuple, different from the entry's. -/
def c7T : TupleD := { valid := true, startTime := none, content := 2 }

/-- C7 counterexample: the playing entry's tuple carries `Tuple::StartTime`
set to ZERO. Under the claim's "non-zero start-time field" detection this
is not a cuesheet entry and the tuple would be updated; the code tests
`is_set (Tuple::StartTime)` (presence, not value), so the call leaves the
state completely unchanged. -/
theorem c7_cuesheet_zero_start_counterexample :
    get_playback_entry c7S 3 = some (1000, 0, c7E) ∧
    c7E.tuple.startTime = some 0 ∧
    c7T ≠ c7E.tuple ∧
    playback_entry_set_tuple c7S 3 c7T = c7S := by decide

/-- C7 (amended): when the serial is valid and a current playing entry
exists, `playback_entry_set_tuple` leaves everything unchanged if the
entry's tuple has the start-time field SET (to any value, zero included —
the cuesheet test is `is_set`, not non-zero); otherwise it stores the new
tuple in that entry and queues a `Metadata` update for it on the playing
playlist. -/
theorem c7_playback_set_tuple_amended (s : GS) (serial : Int) (tuple : TupleD)
    (st eIdx : Nat) (e : EntryD)
    (h : get_playback_entry s serial = some (st, eIdx, e)) :
    (e.tuple.startTime.isSome = true → playback_entry_set_tuple s serial tuple = s) ∧
    (e.tuple.startTime = none →
      ∃ p', lookupLive (playback_entry_set_tuple s serial tuple) st = some p' ∧
        p'.entries[eIdx]? = some { e with tuple := tuple } ∧
        p'.pendingUpdate.level ≠ UpdateLevel.NoUpdate) := by
  have hinv : ∃ p, s.playing = some st ∧ lookupLive s st = some p ∧
      p.entries[eIdx]? = some e ∧ p.position.toNat = eIdx := by
    unfold get_playback_entry at h
    by_cases hser : playback_check_serial s serial
    · rw [if_pos hser] at h
      cases hpl : s.playing with
      | none => rw [hpl] at h; simp at h
      | some st0 =>
        rw [hpl] at h
        dsimp only at h
        cases hlk : lookupLive s st0 with
        | none => rw [hlk] at h; simp at h
        | some p =>
          rw [hlk] at h
          dsimp only at h
          cases hent : entryAt p p.position with
          | none => rw [hent] at h; simp at h
          | some e0 =>
            rw [hent] at h
            simp only [Option.some.injEq, Prod.mk.injEq] at h
            obtain ⟨hst0, hpos, he0⟩ := h
            subst hst0
            refine ⟨p, rfl, hlk, ?_, hpos⟩
            unfold entryAt at hent
            by_cases hpge : (0:Int) ≤ p.position
            · rw [if_pos hpge] at hent
              rw [← hpos, hent, he0]
            · rw [if_neg hpge] at hent
              simp at hent
    · rw [if_neg hser] at h
      simp at h
  obtain ⟨p, hpl, hlk, hpe, hpos⟩ := hinv
  constructor
  · intro hsome
    unfold playback_entry_set_tuple
    rw [h]
    dsimp only
    rw [if_pos hsome]
  · intro hnone
    have hskip : e.tuple.startTime.isSome = false := by rw [hnone]; rfl
    unfold playback_entry_set_tuple
    rw [h]
    dsimp only
    rw [if_neg (by simp [hskip])]
    have hset : lookupLive (set_entry_tuple s st eIdx tuple) st =
        some { p with entries := modifyIdx (fun en => { en with tuple := tuple }) eIdx p.entries } := by
      unfold set_entry_tuple modifyEntryAt
      rw [lookupLive_modifyPData_self s st
        (fun q => { q with entries := modifyIdx (fun en => { en with tuple := tuple }) eIdx q.entries })
        (fun q => rfl), hlk]
      rfl
    rw [lookupLive_pd_queue_update_metadata, hset]
    refine ⟨_, rfl, ?_, ?_⟩
    · dsimp only
      rw [getElem?_modifyIdx_self, hpe]
      rfl
    · dsimp only
      exact mergeURec_metadata_ne _ _ _

/-- The witness twin of `c7E` with no start-time field: a regular stream
entry whose tuple must be replaced. -/
def c7WE : EntryD :=
  { filename := "stream.ogg", decoder := some 1
    tuple := { valid := true, startTime := none, content := 1 } }

def c7WP : PData := { newPData 1000 with index := 0, entries := [c7WE], position := 0 }

def c7WS : GS :=
  { emptyGS with
    usedStamps := [1000]
    playlists := [c7WP]
    active := some 1000
    playing := some 1000
    currentSerial := some 3 }

/-- C7 witness: at `c7WS` the playing entry has no start-time field, so
the amended theorem applies and yields the stored tuple plus the queued
Metadata update. -/
theorem c7_playback_set_tuple_amended_witness :
    get_playback_entry c7WS 3 = some (1000, 0, c7WE) ∧
    ((c7WE.tuple.startTime.isSome = true →
        playback_entry_set_tuple c7WS 3 c7T = c7WS) ∧
     (c7WE.tuple.startTime = none →
        ∃ p', lookupLive (playback_entry_set_tuple c7WS 3 c7T) 1000 = some p' ∧
          p'.entries[0]? = some { c7WE with tuple := c7T } ∧
          p'.pendingUpdate.level ≠ UpdateLevel.NoUpdate)) :=
  ⟨by decide, c7_playback_set_tuple_amended c7WS 3 c7T 1000 0 c7WE (by decide)⟩

/-! ## C4: the update-timer envelope of queue_global_update -/

/-- The global update-bus registers: pending level, fire timer, delayed
flag. -/
def updEnv (s : GS) : UpdateLevel × Option TimerKind × Bool :=
  (s.updateLevel, s.timer, s.updateDelayed)

/-- What one pass of the scan machinery may do to the update-bus
registers: leave them alone, or — only when a delayed update is pending —
flush it: reschedule the fire immediately and clear the delayed flag
(`scan_check_complete`, playlist.cc:306-310). -/
def envStep (a b : UpdateLevel × Option TimerKind × Bool) : Prop :=
  b = a ∨ (a.2.2 = true ∧ b = (a.1, some TimerKind.immediate, false))

theorem envStep_refl (a : UpdateLevel × Option TimerKind × Bool) : envStep a a :=
  Or.inl rfl

theorem envStep_trans {a b c : UpdateLevel × Option TimerKind × Bool}
    (h1 : envStep a b) (h2 : envStep b c) : envStep a c := by
  rcases h1 with rfl | ⟨ha, rfl⟩
  · exact h2
  · rcases h2 with rfl | ⟨hb, rfl⟩
    · exact Or.inr ⟨ha, rfl⟩
    · simp at hb

theorem envStep_fst {a b : UpdateLevel × Option TimerKind × Bool}
    (h : envStep a b) : b.1 = a.1 := by
  rcases h with rfl | ⟨_, rfl⟩ <;> rfl

theorem updEnv_scan_queue_entry (s : GS) (st eIdx : Nat) (fp : Bool) :
    updEnv (scan_queue_entry s st eIdx fp) = updEnv s := by
  unfold scan_queue_entry
  cases h : (lookupLive s st).bind fun p => p.entries[eIdx]? with
  | none => rfl
  | some e => cases fp <;> rfl

theorem updEnv_scan_reset_playback (s : GS) :
    updEnv (scan_reset_playback s) = updEnv s := by
  unfold scan_reset_playback
  cases h : s.scanList.find? fun it => it.for_playback with
  | none => rfl
  | some item =>
    by_cases hh : item.handled_by_playback = true <;> simp only [hh] <;> rfl

theorem envStep_scan_check_complete (s : GS) (st : Nat) :
    envStep (updEnv s) (updEnv (scan_check_complete s st)) := by
  unfold scan_check_complete
  by_cases hc : statusOf s st = some ScanStatus.ScanEnding ∧
      (s.scanList.find? fun it => it.playlist == st) = none
  · rw [if_pos hc]
    dsimp only
    by_cases hd : s.updateDelayed = true
    · have hd2 : (modifyPData s st fun p =>
          { p with scanStatus := ScanStatus.NotScanning }).updateDelayed = true := hd
      rw [if_pos hd2]
      exact Or.inr ⟨hd, rfl⟩
    · have hd2 : ¬ (modifyPData s st fun p =>
          { p with scanStatus := ScanStatus.NotScanning }).updateDelayed = true := hd
      rw [if_neg hd2]
      exact Or.inl rfl
  · rw [if_neg hc]
    exact envStep_refl _

theorem envStep_scanQueueNextAux (fuel : Nat) (s : GS) :
    envStep (updEnv s) (updEnv (scanQueueNextAux fuel s).1) := by
  induction fuel generalizing s with
  | zero => exact envStep_refl _
  | succ f ih =>
    unfold scanQueueNextAux
    by_cases h : s.scanPlaylist < s.playlists.length
    · simp only [h, dite_true]
      set p := s.playlists.get ⟨s.scanPlaylist, h⟩ with hp
      by_cases hst : p.scanStatus = .ScanActive
      · simp only [hst, if_true, ite_true]
        cases hwalk : scanWalkAux s p.stamp p.entries (p.entries.length + 1) s.scanRow with
        | some r =>
          simp only [hwalk]
          exact Or.inl (updEnv_scan_queue_entry { s with scanRow := r } p.stamp r false)
        | none =>
          simp only [hwalk]
          refine envStep_trans ?_ (ih _)
          exact envStep_scan_check_complete
            (modifyIdxGS s s.scanPlaylist fun q => { q with scanStatus := .ScanEnding }) p.stamp
      · simp only [hst, if_false, ite_false]
        exact ih _
    · simp only [h, dite_false]
      exact envStep_refl _

theorem envStep_scan_queue_next_entry (s : GS) :
    envStep (updEnv s) (updEnv (scan_queue_next_entry s).1) := by
  unfold scan_queue_next_entry
  by_cases h : s.scanEnabled
  · simp only [h, not_true, if_false, ite_false, ite_true]
    exact envStep_scanQueueNextAux _ s
  · simp [h, envStep_refl]

theorem envStep_scanScheduleLoop (fuel : Nat) (s : GS) :
    envStep (updEnv s) (updEnv (scanScheduleLoop fuel s)) := by
  induction fuel generalizing s with
  | zero => exact envStep_refl _
  | succ f ih =>
    unfold scanScheduleLoop
    cases hq : scan_queue_next_entry s with
    | mk s' b =>
      have hstep : envStep (updEnv s) (updEnv s') := by
        have h0 := envStep_scan_queue_next_entry s
        rw [hq] at h0
        exact h0
      cases b with
      | true => exact envStep_trans hstep (ih s')
      | false => exact hstep

theorem envStep_scan_schedule (s : GS) :
    envStep (updEnv s) (updEnv (scan_schedule s)) := by
  unfold scan_schedule
  split
  · exact envStep_refl _
  · exact envStep_scanScheduleLoop _ s

theorem envStep_scan_restart (s : GS) :
    envStep (updEnv s) (updEnv (scan_restart s)) := by
  unfold scan_restart
  exact envStep_scan_schedule { s with scanPlaylist := 0, scanRow := 0 }

/-- The flag logic and level merge of `queue_global_update`
(playlist.cc:207-224), as a function of the state left by the
`scan_restart` stage. -/
def qguTail (s : GS) (level : UpdateLevel) (flags : Nat) : GS :=
  let s :=
    if (flags &&& DelayedUpdateFlag) ≠ 0 then
      if s.updateLevel = .NoUpdate then
        { s with timer := some .delayed250, updateDelayed := true }
      else s
    else
      if s.updateLevel = .NoUpdate ∨ s.updateDelayed then
        { s with timer := some .immediate, updateDelayed := false }
      else s
  { s with updateLevel := levelMax s.updateLevel level }

theorem queue_global_update_as_tail (s : GS) (level : UpdateLevel) (flags : Nat) :
    queue_global_update s level flags =
      qguTail (if level = UpdateLevel.Structure then scan_restart s else s) level flags := rfl

theorem qguTail_spec (t : GS) (level : UpdateLevel) (flags : Nat) :
    (qguTail t level flags).updateLevel = levelMax t.updateLevel level ∧
    ((flags &&& DelayedUpdateFlag) ≠ 0 → t.updateLevel = UpdateLevel.NoUpdate →
      (qguTail t level flags).timer = some TimerKind.delayed250 ∧
      (qguTail t level flags).updateDelayed = true) ∧
    ((flags &&& DelayedUpdateFlag) ≠ 0 → t.updateLevel ≠ UpdateLevel.NoUpdate →
      (qguTail t level flags).timer = t.timer ∧
      (qguTail t level flags).updateDelayed = t.updateDelayed) ∧
    ((flags &&& DelayedUpdateFlag) = 0 →
      (t.updateLevel = UpdateLevel.NoUpdate ∨ t.updateDelayed = true) →
      (qguTail t level flags).timer = some TimerKind.immediate ∧
      (qguTail t level flags).updateDelayed = false) ∧
    ((flags &&& DelayedUpdateFlag) = 0 → t.updateLevel ≠ UpdateLevel.NoUpdate →
      t.updateDelayed = false →
      (qguTail t level flags).timer = t.timer ∧
      (qguTail t level flags).updateDelayed = false) := by
  unfold qguTail
  by_cases hfl : (flags &&& DelayedUpdateFlag) = 0
  · rw [if_neg (by simpa using hfl)]
    by_cases hcond : t.updateLevel = UpdateLevel.NoUpdate ∨ t.updateDelayed = true
    · rw [if_pos (by exact hcond.imp id fun hb => hb)]
      refine ⟨rfl, ?_, ?_, ?_, ?_⟩
      · intro hne; exact absurd hfl hne
      · intro hne; exact absurd hfl hne
      · intro _ _; exact ⟨rfl, rfl⟩
      · intro _ hlvl hdel
        rcases hcond with hc | hc
        · exact absurd hc hlvl
        · rw [hdel] at hc; cases hc
    · rw [if_neg (by intro hor; exact hcond (hor.imp id fun hb => hb))]
      refine ⟨rfl, ?_, ?_, ?_, ?_⟩
      · intro hne; exact absurd hfl hne
      · intro hne; exact absurd hfl hne
      · intro _ hor; exact absurd hor hcond
      · intro _ _ hdel; exact ⟨rfl, hdel⟩
  · rw [if_pos hfl]
    by_cases hlvl : t.updateLevel = UpdateLevel.NoUpdate
    · rw [if_pos hlvl]
      refine ⟨rfl, ?_, ?_, ?_, ?_⟩
      · intro _ _; exact ⟨rfl, rfl⟩
      · intro _ hne; exact absurd hlvl hne
      · intro hz; exact absurd hz hfl
      · intro hz; exact absurd hz hfl
    · rw [if_neg hlvl]
      refine ⟨rfl, ?_, ?_, ?_, ?_⟩
      · intro _ hl; exact absurd hl hlvl
      · intro _ _; exact ⟨rfl, rfl⟩
      · intro hz; exact absurd hz hfl
      · intro hz; exact absurd hz hfl

/-- A fully scanned playlist still marked `ScanActive`: restarting the
scan immediately completes it. -/
def c4E : EntryD :=
  { filename := "A.mp3", decoder := some 1
    tuple := { valid := true, startTime := none, content := 3 } }

def c4P : PData :=
  { stamp := 1000, index := 0, title := "T", filename := some "f.audpl"
    entries := [c4E], position := 0, focus := 0, resumeTime := 7
    modified := false, scanStatus := .ScanActive
    pendingUpdate := noURec, lastUpdate := noURec, queue := [] }

def c4S : GS :=
  { usedStamps := [1000], nextStamp := 1000, playlists := [c4P]
    active := some 1000, playing := some 1000, resumePlaylist := -1
    resumePaused := false, updateLevel := .Metadata, updateDelayed := true
    timer := some .delayed250, scanEnabled := true, scanPlaylist := 0
    scanRow := 0, scanList := [], nextRequest := 0, currentSerial := some 5
    log := [] }

/-- C4 counterexample: a `Structure` update with the `DelayedUpdate` flag
while a delayed `Metadata` update is pending. The claim says the pending
update is "left"; but the `scan_restart` performed first completes the
playlist's scan, whose completion check flushes the pending delayed
update: the fire is rescheduled immediately and `delayed` is cleared. -/
theorem c4_queue_global_update_counterexample :
    c4S.updateLevel ≠ UpdateLevel.NoUpdate ∧
    c4S.updateDelayed = true ∧
    c4S.timer = some TimerKind.delayed250 ∧
    (queue_global_update c4S UpdateLevel.Structure DelayedUpdateFlag).timer =
      some TimerKind.immediate ∧
    (queue_global_update c4S UpdateLevel.Structure DelayedUpdateFlag).updateDelayed = false ∧
    (queue_global_update c4S UpdateLevel.Structure DelayedUpdateFlag).updateLevel =
      UpdateLevel.Structure := by decide

/-- C4 (amended): `queue_global_update` first runs `scan_restart` for a
`Structure` update, which may already flush a pending delayed update
(reschedule it immediately and clear `delayed`) but never touches the
pending level (`envStep`). The flag logic then applies to that
intermediate state: with the `DelayedUpdate` flag it schedules the 250 ms
fire and sets `delayed` only when no update is pending, else leaves timer
and flag as the restart left them; without the flag it (re)schedules an
immediate fire and clears `delayed` when no update is pending or the
pending one is (still) delayed; the global level always becomes
`max (old, new)`. -/
theorem c4_queue_global_update_amended (s : GS) (level : UpdateLevel) (flags : Nat) :
    envStep (updEnv s)
      (updEnv (if level = UpdateLevel.Structure then scan_restart s else s)) ∧
    (if level = UpdateLevel.Structure then scan_restart s else s).updateLevel =
      s.updateLevel ∧
    (queue_global_update s level flags).updateLevel = levelMax s.updateLevel level ∧
    ((flags &&& DelayedUpdateFlag) ≠ 0 → s.updateLevel = UpdateLevel.NoUpdate →
      (queue_global_update s level flags).timer = some TimerKind.delayed250 ∧
      (queue_global_update s level flags).updateDelayed = true) ∧
    ((flags &&& DelayedUpdateFlag) ≠ 0 → s.updateLevel ≠ UpdateLevel.NoUpdate →
      (queue_global_update s level flags).timer =
        (if level = UpdateLevel.Structure then scan_restart s else s).timer ∧
      (queue_global_update s level flags).updateDelayed =
        (if level = UpdateLevel.Structure then scan_restart s else s).updateDelayed) ∧
    ((flags &&& DelayedUpdateFlag) = 0 →
      (s.updateLevel = UpdateLevel.NoUpdate ∨
        (if level = UpdateLevel.Structure then scan_restart s else s).updateDelayed = true) →
      (queue_global_update s level flags).timer = some TimerKind.immediate ∧
      (queue_global_update s level flags).updateDelayed = false) ∧
    ((flags &&& DelayedUpdateFlag) = 0 → s.updateLevel ≠ UpdateLevel.NoUpdate →
      (if level = UpdateLevel.Structure then scan_restart s else s).updateDelayed = false →
      (queue_global_update s level flags).timer =
        (if level = UpdateLevel.Structure then scan_restart s else s).timer ∧
      (queue_global_update s level flags).updateDelayed = false) := by
  have henv : envStep (updEnv s)
      (updEnv (if level = UpdateLevel.Structure then scan_restart s else s)) := by
    split
    · exact envStep_scan_restart s
    · exact envStep_refl _
  have hlvleq : (if level = UpdateLevel.Structure then scan_restart s else s).updateLevel =
      s.updateLevel := envStep_fst henv
  obtain ⟨h1, h2, h3, h4, h5⟩ :=
    qguTail_spec (if level = UpdateLevel.Structure then scan_restart s else s) level flags
  rw [queue_global_update_as_tail]
  refine ⟨henv, hlvleq, ?_, ?_, ?_, ?_, ?_⟩
  · rw [h1, hlvleq]
  · intro hf hn
    exact h2 hf (by rw [hlvleq]; exact hn)
  · intro hf hn
    exact h3 hf (by rw [hlvleq]; exact hn)
  · intro hf hor
    refine h4 hf ?_
    rcases hor with h | h
    · exact Or.inl (by rw [hlvleq]; exact h)
    · exact Or.inr h
  · intro hf hn hd
    exact h5 hf (by rw [hlvleq]; exact hn) hd

/-- C4 witness: the amended description instantiated at the
counterexample state, a `Structure` level and the `DelayedUpdate` flag. -/
theorem c4_queue_global_update_amended_witness :
    envStep (updEnv c4S)
      (updEnv (if UpdateLevel.Structure = UpdateLevel.Structure then scan_restart c4S else c4S)) ∧
    (if UpdateLevel.Structure = UpdateLevel.Structure then scan_restart c4S else c4S).updateLevel =
      c4S.updateLevel ∧
    (queue_global_update c4S UpdateLevel.Structure DelayedUpdateFlag).updateLevel =
      levelMax c4S.updateLevel UpdateLevel.Structure ∧
    ((DelayedUpdateFlag &&& DelayedUpdateFlag) ≠ 0 → c4S.updateLevel = UpdateLevel.NoUpdate →
      (queue_global_update c4S UpdateLevel.Structure DelayedUpdateFlag).timer =
        some TimerKind.delayed250 ∧
      (queue_global_update c4S UpdateLevel.Structure DelayedUpdateFlag).updateDelayed = true) ∧
    ((DelayedUpdateFlag &&& DelayedUpdateFlag) ≠ 0 → c4S.updateLevel ≠ UpdateLevel.NoUpdate →
      (queue_global_update c4S UpdateLevel.Structure DelayedUpdateFlag).timer =
        (if UpdateLevel.Structure = UpdateLevel.Structure then scan_restart c4S else c4S).timer ∧
      (queue_global_update c4S UpdateLevel.Structure DelayedUpdateFlag).updateDelayed =
        (if UpdateLevel.Structure = UpdateLevel.Structure then scan_restart c4S else c4S).updateDelayed) ∧
    ((DelayedUpdateFlag &&& DelayedUpdateFlag) = 0 →
      (c4S.updateLevel = UpdateLevel.NoUpdate ∨
        (if UpdateLevel.Structure = UpdateLevel.Structure then scan_restart c4S else c4S).updateDelayed = true) →
      (queue_global_update c4S UpdateLevel.Structure DelayedUpdateFlag).timer =
        some TimerKind.immediate ∧
      (queue_global_update c4S UpdateLevel.Structure DelayedUpdateFlag).updateDelayed = false) ∧
    ((DelayedUpdateFlag &&& DelayedUpdateFlag) = 0 → c4S.updateLevel ≠ UpdateLevel.NoUpdate →
      (if UpdateLevel.Structure = UpdateLevel.Structure then scan_restart c4S else c4S).updateDelayed = false →
      (queue_global_update c4S UpdateLevel.Structure DelayedUpdateFlag).timer =
        (if UpdateLevel.Structure = UpdateLevel.Structure then scan_restart c4S else c4S).timer ∧
      (queue_global_update c4S UpdateLevel.Structure DelayedUpdateFlag).updateDelayed = false) :=
  c4_queue_global_update_amended c4S UpdateLevel.Structure DelayedUpdateFlag

/-! ## C8: the state-file round trip -/

theorem getElem?_modifyIdx_ne (f : α → α) (n : Nat) (l : List α) (i : Nat)
    (h : i ≠ n) : (modifyIdx f n l)[i]? = l[i]? := by
  induction l generalizing n i with
  | nil => cases n <;> rfl
  | cons a as ih =>
    cases n with
    | zero =>
      cases i with
      | zero => exact absurd rfl h
      | succ j => simp [modifyIdx]
    | succ m =>
      cases i with
      | zero => simp [modifyIdx]
      | succ j => simpa [modifyIdx] using ih m j (by omega)

theorem indexedFrom_drop (l : List PData) (k : Nat) (h : indexedFrom 0 l) :
    indexedFrom (k : Int) (List.drop k l) := by
  rw [indexedFrom_iff] at h ⊢
  intro j hj
  have hjk : k + j < l.length := by
    simp only [List.length_drop] at hj
    omega
  have h2 := h (k + j) hjk
  have h3 : (List.drop k l)[j] = l[k + j] := List.getElem_drop _
  rw [h3, h2]
  push_cast
  ring

/-- What the load loop leaves of a playlist whose block was written by
`saveRow` from the playlist itself: filename, position and stamp keep
their values, the focus is seeded from a valid position, and the resume
time becomes the saved one (the live playback time for the playing
playlist, the stored value otherwise). -/
def blockResult (playing : Option Nat) (time : Int) (p : PData) : PData :=
  let p2 := if 0 ≤ p.position ∧ p.position.toNat < p.entries.length then
    { p with focus := p.position } else p
  { p2 with resumeTime := if playing = some p.stamp then time else p.resumeTime }

theorem loadBlock_spec (sp : Option Nat) (paused : Bool) (time : Int)
    (t : GS) (n : Nat) (p : PData) (tail : List StateLine)
    (hp : t.playlists[n]? = some p) :
    (loadBlock t n ((saveRow sp paused time p).drop 1 ++ tail)).2 = tail ∧
    (loadBlock t n ((saveRow sp paused time p).drop 1 ++ tail)).1.playlists.length =
      t.playlists.length ∧
    (∀ i, i ≠ n →
      (loadBlock t n ((saveRow sp paused time p).drop 1 ++ tail)).1.playlists[i]? =
        t.playlists[i]?) ∧
    (loadBlock t n ((saveRow sp paused time p).drop 1 ++ tail)).1.playlists[n]? =
      some (blockResult sp time p) ∧
    (loadBlock t n ((saveRow sp paused time p).drop 1 ++ tail)).1.active = t.active ∧
    (loadBlock t n ((saveRow sp paused time p).drop 1 ++ tail)).1.resumePlaylist =
      t.resumePlaylist ∧
    (loadBlock t n ((saveRow sp paused time p).drop 1 ++ tail)).1.resumePaused =
      (t.resumePaused ||
        decide ((n : Int) = t.resumePlaylist ∧ sp = some p.stamp ∧ paused = true)) := by
  have hblock : ∀ (fnPart : List StateLine) (t1 : GS),
      loadFnStep t n ((fnPart ++
        [StateLine.positionL p.position,
         StateLine.resumeStateL (if sp = some p.stamp ∧ paused then ResumePause
           else ResumePlay),
         StateLine.resumeTimeL (if sp = some p.stamp then time else p.resumeTime)]) ++
        tail) = (t1, StateLine.positionL p.position ::
          StateLine.resumeStateL (if sp = some p.stamp ∧ paused then ResumePause
            else ResumePlay) ::
          StateLine.resumeTimeL (if sp = some p.stamp then time else p.resumeTime) ::
          tail) →
      t1.playlists[n]? = some { p with filename := p.filename } →
      t1.playlists.length = t.playlists.length →
      (∀ i, i ≠ n → t1.playlists[i]? = t.playlists[i]?) →
      t1.active = t.active → t1.resumePlaylist = t.resumePlaylist →
      t1.resumePaused = t.resumePaused →
      True := fun _ _ _ _ _ _ _ _ _ => trivial
  clear hblock
  cases hf : p.filename with
  | none =>
    simp only [saveRow, hf, List.nil_append, List.cons_append, List.singleton_append,
      List.drop_succ_cons, List.drop_zero]
    refine ⟨?y1, ?y2, ?y3, ?y4, ?y5, ?y6, ?y7⟩
    case y3 =>
      intro i hi
      by_cases hv : 0 ≤ p.position ∧ p.position.toNat < p.entries.length <;>
        by_cases hm : (n : Int) = t.resumePlaylist <;>
        by_cases hpp : sp = some p.stamp ∧ paused = true <;>
        simp [loadBlock, loadFnStep, loadPosStep, loadRSStep, loadRTStep,
          modifyIdxGS, nEntriesAt, hv, hm, hpp, blockResult, length_modifyIdx,
          ResumePause, ResumePlay, ResumeStop,
          getElem?_modifyIdx_self, getElem?_modifyIdx_ne, hp, hi, hf]
    all_goals
      by_cases hv : 0 ≤ p.position ∧ p.position.toNat < p.entries.length <;>
        by_cases hm : (n : Int) = t.resumePlaylist <;>
        by_cases hpp : sp = some p.stamp ∧ paused = true <;>
        simp [loadBlock, loadFnStep, loadPosStep, loadRSStep, loadRTStep,
          modifyIdxGS, nEntriesAt, hv, hm, hpp, blockResult, length_modifyIdx,
          ResumePause, ResumePlay, ResumeStop,
          getElem?_modifyIdx_self, getElem?_modifyIdx_ne, hp, hf]
  | some f =>
    simp only [saveRow, hf, List.nil_append, List.cons_append, List.singleton_append,
      List.drop_succ_cons, List.drop_zero]
    refine ⟨?z1, ?z2, ?z3, ?z4, ?z5, ?z6, ?z7⟩
    case z3 =>
      intro i hi
      by_cases hv : 0 ≤ p.position ∧ p.position.toNat < p.entries.length <;>
        by_cases hm : (n : Int) = t.resumePlaylist <;>
        by_cases hpp : sp = some p.stamp ∧ paused = true <;>
        simp [loadBlock, loadFnStep, loadPosStep, loadRSStep, loadRTStep,
          modifyIdxGS, nEntriesAt, hv, hm, hpp, blockResult, length_modifyIdx,
          ResumePause, ResumePlay, ResumeStop,
          getElem?_modifyIdx_self, getElem?_modifyIdx_ne, hp, hi, hf]
    all_goals
      by_cases hv : 0 ≤ p.position ∧ p.position.toNat < p.entries.length <;>
        by_cases hm : (n : Int) = t.resumePlaylist <;>
        by_cases hpp : sp = some p.stamp ∧ paused = true <;>
        simp [loadBlock, loadFnStep, loadPosStep, loadRSStep, loadRTStep,
          modifyIdxGS, nEntriesAt, hv, hm, hpp, blockResult, length_modifyIdx,
          ResumePause, ResumePlay, ResumeStop,
          getElem?_modifyIdx_self, getElem?_modifyIdx_ne, hp, hf]

theorem catMap_cons_row (sp : Option Nat) (paused : Bool) (time : Int)
    (p : PData) (rest : List PData) :
    catMap (saveRow sp paused time) (p :: rest) =
      StateLine.playlistL p.index ::
        ((saveRow sp paused time p).drop 1 ++ catMap (saveRow sp paused time) rest) := by
  show saveRow sp paused time p ++ catMap (saveRow sp paused time) rest = _
  cases hf : p.filename <;> simp [saveRow, hf]

theorem loadLoopAux_rows (sp : Option Nat) (paused : Bool) (time : Int) (G : Int)
    (rest : List PData) :
    ∀ (k : Nat) (t : GS) (fuel : Nat),
      indexedFrom (k : Int) rest →
      (∀ i, i < rest.length → t.playlists[k + i]? = rest[i]?) →
      t.playlists.length = k + rest.length →
      t.resumePlaylist = G →
      rest.length ≤ fuel →
      (loadLoopAux t fuel (catMap (saveRow sp paused time) rest)).2 = [] ∧
      (loadLoopAux t fuel (catMap (saveRow sp paused time) rest)).1.playlists.length =
        t.playlists.length ∧
      (∀ i, i < k →
        (loadLoopAux t fuel (catMap (saveRow sp paused time) rest)).1.playlists[i]? =
          t.playlists[i]?) ∧
      (∀ i (hi : i < rest.length),
        (loadLoopAux t fuel (catMap (saveRow sp paused time) rest)).1.playlists[k + i]? =
          some (blockResult sp time (rest.get ⟨i, hi⟩))) ∧
      (loadLoopAux t fuel (catMap (saveRow sp paused time) rest)).1.active = t.active ∧
      (loadLoopAux t fuel (catMap (saveRow sp paused time) rest)).1.resumePlaylist = G ∧
      (loadLoopAux t fuel (catMap (saveRow sp paused time) rest)).1.resumePaused =
        (t.resumePaused || (rest.any fun q =>
          decide ((q.index : Int) = G ∧ sp = some q.stamp ∧ paused = true))) := by
  induction rest with
  | nil =>
    intro k t fuel hidx hrest hlen hG hfuel
    have hload : loadLoopAux t fuel (catMap (saveRow sp paused time) []) = (t, []) := by
      cases fuel <;> rfl
    rw [hload]
    refine ⟨rfl, rfl, fun i _ => rfl, fun i hi => absurd hi (by simp), rfl, hG, by simp⟩
  | cons p rest ih =>
    intro k t fuel hidx hrest hlen hG hfuel
    obtain ⟨hpidx, hidx2⟩ := hidx
    simp only [List.length_cons] at hlen hfuel
    cases fuel with
    | zero => omega
    | succ f =>
      rw [catMap_cons_row]
      have hp0 : t.playlists[k]? = some p := by
        have h0 := hrest 0 (by simp)
        simpa using h0
      have hguard : 0 ≤ p.index ∧ p.index.toNat < t.playlists.length := by
        constructor
        · rw [hpidx]
          exact Int.natCast_nonneg k
        · rw [hpidx]
          simp only [Int.toNat_natCast]
          omega
      have hred : loadLoopAux t (f + 1) (StateLine.playlistL p.index ::
          ((saveRow sp paused time p).drop 1 ++ catMap (saveRow sp paused time) rest)) =
          loadLoopAux (loadBlock t p.index.toNat
            ((saveRow sp paused time p).drop 1 ++ catMap (saveRow sp paused time) rest)).1
            f (loadBlock t p.index.toNat
            ((saveRow sp paused time p).drop 1 ++ catMap (saveRow sp paused time) rest)).2 := by
        simp only [loadLoopAux]
        rw [if_pos hguard]
      rw [hred]
      have hkn : p.index.toNat = k := by
        rw [hpidx]
        simp
      rw [hkn]
      obtain ⟨b1, b2, b3, b4, b5, b6, b7⟩ :=
        loadBlock_spec sp paused time t k p (catMap (saveRow sp paused time) rest) hp0
      rw [b1]
      set t' := (loadBlock t k
        ((saveRow sp paused time p).drop 1 ++ catMap (saveRow sp paused time) rest)).1 with ht'
      have hidx2' : indexedFrom ((k + 1 : Nat) : Int) rest := by
        have : ((k + 1 : Nat) : Int) = (k : Int) + 1 := by push_cast; ring
        rw [this]
        exact hidx2
      have hrest' : ∀ i, i < rest.length → t'.playlists[(k + 1) + i]? = rest[i]? := by
        intro i hi
        rw [b3 ((k + 1) + i) (by omega)]
        have h1 := hrest (i + 1) (by simp; omega)
        have h2 : k + (i + 1) = (k + 1) + i := by omega
        rw [h2] at h1
        rw [h1]
        simp
      have hlen' : t'.playlists.length = (k + 1) + rest.length := by
        rw [b2]
        omega
      have hG' : t'.resumePlaylist = G := by rw [b6, hG]
      obtain ⟨r1, r2, r3, r4, r5, r6, r7⟩ :=
        ih (k + 1) t' f hidx2' hrest' hlen' hG' (by omega)
      refine ⟨r1, ?_, ?_, ?_, ?_, r6, ?_⟩
      · rw [r2, b2]
      · intro i hik
        rw [r3 i (by omega), b3 i (by omega)]
      · intro i hi
        cases i with
        | zero => exact (r3 k (by omega)).trans b4
        | succ j =>
          have h2 : k + (j + 1) = (k + 1) + j := by omega
          rw [h2, r4 j (by simpa using hi)]
          rfl
      · rw [r5, b5]
      · rw [r7, b7, hG]
        simp only [List.any_cons, hpidx]
        cases paused <;> cases t.resumePaused <;> simp [Bool.or_assoc]

theorem finalizeP_fields (y : PData) :
    (finalizeP y).filename = y.filename ∧ (finalizeP y).position = y.position ∧
    (finalizeP y).stamp = y.stamp ∧ (finalizeP y).resumeTime = y.resumeTime := by
  unfold finalizeP
  refine ⟨?_, ?_, ?_, ?_⟩ <;> (dsimp only; repeat' split) <;> rfl

theorem blockResult_fields (sp : Option Nat) (time : Int) (p : PData) :
    (blockResult sp time p).filename = p.filename ∧
    (blockResult sp time p).position = p.position ∧
    (blockResult sp time p).stamp = p.stamp ∧
    (blockResult sp time p).resumeTime =
      (if sp = some p.stamp then time else p.resumeTime) := by
  unfold blockResult
  refine ⟨?_, ?_, ?_, ?_⟩ <;> (dsimp only; repeat' split) <;> rfl

theorem findByStamp_mem_nodup {st : Nat} {l : List PData} {p : PData}
    (hmem : p ∈ l) (hst : p.stamp = st)
    (hnd : (l.map fun q => q.stamp).Nodup) :
    findByStamp st l = some p := by
  induction l with
  | nil => cases hmem
  | cons q qs ih =>
    simp only [List.map_cons, List.nodup_cons] at hnd
    rcases List.mem_cons.mp hmem with rfl | hmem2
    · rw [findByStamp, if_pos hst]
    · by_cases hq : q.stamp = st
      · exfalso
        refine hnd.1 ?_
        rw [hq, ← hst]
        exact List.mem_map.mpr ⟨p, hmem2, rfl⟩
      · rw [findByStamp, if_neg hq]
        exact ih hmem2 hnd.2

theorem length_le_catMap_saveRow (sp : Option Nat) (paused : Bool) (time : Int)
    (rest : List PData) :
    rest.length ≤ (catMap (saveRow sp paused time) rest).length := by
  induction rest with
  | nil => simp [catMap]
  | cons p ps ih =>
    rw [catMap]
    simp only [List.length_append, List.length_cons]
    have h1 : 1 ≤ (saveRow sp paused time p).length := by
      cases hf : p.filename <;> simp [saveRow, hf]
    omega

/-- C8 (amended): loading the state saved from a Registry satisfying the
invariant restores `active`, records the playing playlist as the resume
playlist, and restores every playlist's filename, position and stamp; but
the playing playlist's `resume_time` comes back as the live playback time
captured at save, and `resume_paused` is the old flag OR-ed with the live
pause state — load only ever sets it. -/
theorem c8_save_load_roundtrip_amended (s : GS) (paused : Bool) (time : Int)
    (hinv : registryInvariant s) :
    (playlist_load_state s (playlist_save_state_lines s paused time)).active = s.active ∧
    (playlist_load_state s (playlist_save_state_lines s paused time)).resumePlaylist =
      idIndex s s.playing ∧
    (playlist_load_state s (playlist_save_state_lines s paused time)).playlists.length =
      s.playlists.length ∧
    (∀ j (hj : j < s.playlists.length) (hj' : j <
        (playlist_load_state s (playlist_save_state_lines s paused time)).playlists.length),
      ((playlist_load_state s (playlist_save_state_lines s paused time)).playlists.get
          ⟨j, hj'⟩).filename = (s.playlists.get ⟨j, hj⟩).filename ∧
      ((playlist_load_state s (playlist_save_state_lines s paused time)).playlists.get
          ⟨j, hj'⟩).position = (s.playlists.get ⟨j, hj⟩).position ∧
      ((playlist_load_state s (playlist_save_state_lines s paused time)).playlists.get
          ⟨j, hj'⟩).stamp = (s.playlists.get ⟨j, hj⟩).stamp ∧
      ((playlist_load_state s (playlist_save_state_lines s paused time)).playlists.get
          ⟨j, hj'⟩).resumeTime =
        (if s.playing = some ((s.playlists.get ⟨j, hj⟩).stamp) then time
          else (s.playlists.get ⟨j, hj⟩).resumeTime)) ∧
    (playlist_load_state s (playlist_save_state_lines s paused time)).resumePaused =
      (s.resumePaused || (s.playing.isSome && paused)) := by
  obtain ⟨h1, h2, h3, h4, h5, h6, h7, h8⟩ := hinv
  obtain ⟨act, hact⟩ := Option.isSome_iff_exists.mp h5
  have hactmem := h6 act hact
  obtain ⟨pa, hpamem, hpastamp⟩ := List.mem_map.mp hactmem
  obtain ⟨ja, hja, hgetpa, hpaidx⟩ := mem_position s.playlists pa h1 hpamem
  have hfind_a : findByStamp act s.playlists = some pa :=
    findByStamp_mem_nodup hpamem hpastamp h3
  have hsa : (if 0 ≤ idIndex s s.active then
      match s.playlists[(idIndex s s.active).toNat]? with
      | some p => { s with active := some p.stamp }
      | none => s
    else s) = s := by
    have hidxA : idIndex s s.active = pa.index := by
      rw [hact]
      unfold idIndex lookupLive
      dsimp only
      rw [hfind_a]
      rfl
    rw [hidxA, hpaidx]
    rw [if_pos (Int.natCast_nonneg ja)]
    simp only [Int.toNat_natCast]
    rw [List.getElem?_eq_getElem hja, hgetpa]
    show { s with active := some pa.stamp } = s
    have hpa2 : some pa.stamp = s.active := by rw [hpastamp, hact]
    rw [hpa2]
  have e1 : loadActiveStep s (StateLine.activeL (idIndex s s.active) ::
      StateLine.playingL (idIndex s s.playing) ::
      catMap (saveRow s.playing paused time) s.playlists) =
      (s, StateLine.playingL (idIndex s s.playing) ::
        catMap (saveRow s.playing paused time) s.playlists) := by
    unfold loadActiveStep
    dsimp only
    rw [hsa]
  have hload : playlist_load_state s (playlist_save_state_lines s paused time) =
      loadFinalize (loadLoopAux { s with resumePlaylist := idIndex s s.playing }
        ((catMap (saveRow s.playing paused time) s.playlists).length + 1)
        (catMap (saveRow s.playing paused time) s.playlists)).1 := by
    unfold playlist_load_state playlist_save_state_lines
    dsimp only
    rw [e1]
    rfl
  obtain ⟨r1, r2, r3, r4, r5, r6, r7⟩ :=
    loadLoopAux_rows s.playing paused time (idIndex s s.playing) s.playlists 0
      { s with resumePlaylist := idIndex s s.playing }
      ((catMap (saveRow s.playing paused time) s.playlists).length + 1)
      (by exact h1)
      (by intro i hi; simp)
      (by simp)
      rfl
      (by
        have := length_le_catMap_saveRow s.playing paused time s.playlists
        omega)
  refine ⟨?_, ?_, ?_, ?_, ?_⟩
  · rw [hload]
    exact r5
  · rw [hload]
    exact r6
  · rw [hload]
    have hfl : (loadFinalize (loadLoopAux { s with resumePlaylist := idIndex s s.playing }
        ((catMap (saveRow s.playing paused time) s.playlists).length + 1)
        (catMap (saveRow s.playing paused time) s.playlists)).1).playlists.length =
        (loadLoopAux { s with resumePlaylist := idIndex s s.playing }
        ((catMap (saveRow s.playing paused time) s.playlists).length + 1)
        (catMap (saveRow s.playing paused time) s.playlists)).1.playlists.length := by
      simp [loadFinalize]
    rw [hfl, r2]
  · intro j hj hj'
    have hXj : (loadLoopAux { s with resumePlaylist := idIndex s s.playing }
        ((catMap (saveRow s.playing paused time) s.playlists).length + 1)
        (catMap (saveRow s.playing paused time) s.playlists)).1.playlists[j]? =
        some (blockResult s.playing time (s.playlists.get ⟨j, hj⟩)) := by
      have h0 := r4 j hj
      simpa using h0
    have hrq : (playlist_load_state s
        (playlist_save_state_lines s paused time)).playlists[j]? =
        some (finalizeP (blockResult s.playing time (s.playlists.get ⟨j, hj⟩))) := by
      rw [hload]
      simp [loadFinalize, List.getElem?_map, hXj]
    have h0 : (playlist_load_state s
        (playlist_save_state_lines s paused time)).playlists[j]? =
        some ((playlist_load_state s
          (playlist_save_state_lines s paused time)).playlists.get ⟨j, hj'⟩) :=
      List.getElem?_eq_getElem hj'
    have hget : (playlist_load_state s
        (playlist_save_state_lines s paused time)).playlists.get ⟨j, hj'⟩ =
        finalizeP (blockResult s.playing time (s.playlists.get ⟨j, hj⟩)) :=
      Option.some.inj (h0.symm.trans hrq)
    rw [hget]
    obtain ⟨f1, f2, f3, f4⟩ :=
      finalizeP_fields (blockResult s.playing time (s.playlists.get ⟨j, hj⟩))
    obtain ⟨g1, g2, g3, g4⟩ := blockResult_fields s.playing time (s.playlists.get ⟨j, hj⟩)
    exact ⟨f1.trans g1, f2.trans g2, f3.trans g3, f4.trans g4⟩
  · rw [hload]
    have hfin : (loadFinalize (loadLoopAux { s with resumePlaylist := idIndex s s.playing }
        ((catMap (saveRow s.playing paused time) s.playlists).length + 1)
        (catMap (saveRow s.playing paused time) s.playlists)).1).resumePaused =
        (loadLoopAux { s with resumePlaylist := idIndex s s.playing }
        ((catMap (saveRow s.playing paused time) s.playlists).length + 1)
        (catMap (saveRow s.playing paused time) s.playlists)).1.resumePaused := rfl
    rw [hfin, r7]
    have hany : (s.playlists.any fun q =>
        decide ((q.index : Int) = idIndex s s.playing ∧
          s.playing = some q.stamp ∧ paused = true)) = (s.playing.isSome && paused) := by
      cases hpl : s.playing with
      | none =>
        simp only [Option.isSome_none, Bool.false_and]
        refine List.any_eq_false.mpr ?_
        intro q hq
        simp [hpl]
      | some g =>
        have hgmem := h7 g hpl
        obtain ⟨pg, hpgmem, hpgstamp⟩ := List.mem_map.mp hgmem
        obtain ⟨jg, hjg, hgetpg, hpgidx⟩ := mem_position s.playlists pg h1 hpgmem
        have hfind_g : findByStamp g s.playlists = some pg :=
          findByStamp_mem_nodup hpgmem hpgstamp h3
        have hidxG : idIndex s (some g) = pg.index := by
          unfold idIndex lookupLive
          dsimp only
          rw [hfind_g]
          rfl
        cases paused with
        | false =>
          simp only [Bool.and_false]
          refine List.any_eq_false.mpr ?_
          intro q hq
          simp
        | true =>
          simp only [Option.isSome_some, Bool.and_true, Bool.true_and]
          refine List.any_eq_true.mpr ?_
          refine ⟨pg, hpgmem, ?_⟩
          refine decide_eq_true ?_
          exact ⟨hidxG.symm, by rw [hpgstamp], by trivial⟩
    rw [hany]

/-- A one-playlist state that is playing (stamp 1000), not paused, with a
stored resume time of 7. -/
def c8E : EntryD :=
  { filename := "A.mp3", decoder := some 1
    tuple := { valid := true, startTime := none, content := 3 } }

def c8P : PData :=
  { stamp := 1000, index := 0, title := "T", filename := some "f.audpl"
    entries := [c8E], position := 0, focus := 0, resumeTime := 7
    modified := false, scanStatus := .NotScanning
    pendingUpdate := noURec, lastUpdate := noURec, queue := [] }

def c8S : GS :=
  { usedStamps := [1000], nextStamp := 1000, playlists := [c8P]
    active := some 1000, playing := some 1000, resumePlaylist := -1
    resumePaused := false, updateLevel := .NoUpdate, updateDelayed := false
    timer := none, scanEnabled := false, scanPlaylist := 0, scanRow := 0
    scanList := [], nextRequest := 0, currentSerial := some 5, log := [] }

/-- C8 counterexample: saving while playing paused at playback time 45000
and loading back does NOT restore `resume_time` (7 becomes 45000: save
writes the live playback time for the playing playlist) nor
`resume_paused` (false becomes true: load sets it from the saved Pause
state and never clears it). -/
theorem c8_roundtrip_counterexample :
    c8S.resumePaused = false ∧
    (c8S.playlists.map fun p => p.resumeTime) = [7] ∧
    (playlist_load_state c8S (playlist_save_state_lines c8S true 45000)).resumePaused =
      true ∧
    ((playlist_load_state c8S (playlist_save_state_lines c8S true 45000)).playlists.map
      fun p => p.resumeTime) = [45000] := by decide

/-- C8 witness: the amended round-trip description instantiated at `c8S`
with the live pause flag and playback time 45000. -/
theorem c8_save_load_roundtrip_amended_witness :
    (playlist_load_state c8S (playlist_save_state_lines c8S true 45000)).active =
      c8S.active ∧
    (playlist_load_state c8S (playlist_save_state_lines c8S true 45000)).resumePlaylist =
      idIndex c8S c8S.playing ∧
    (playlist_load_state c8S (playlist_save_state_lines c8S true 45000)).playlists.length =
      c8S.playlists.length ∧
    (∀ j (hj : j < c8S.playlists.length) (hj' : j <
        (playlist_load_state c8S (playlist_save_state_lines c8S true 45000)).playlists.length),
      ((playlist_load_state c8S (playlist_save_state_lines c8S true 45000)).playlists.get
          ⟨j, hj'⟩).filename = (c8S.playlists.get ⟨j, hj⟩).filename ∧
      ((playlist_load_state c8S (playlist_save_state_lines c8S true 45000)).playlists.get
          ⟨j, hj'⟩).position = (c8S.playlists.get ⟨j, hj⟩).position ∧
      ((playlist_load_state c8S (playlist_save_state_lines c8S true 45000)).playlists.get
          ⟨j, hj'⟩).stamp = (c8S.playlists.get ⟨j, hj⟩).stamp ∧
      ((playlist_load_state c8S (playlist_save_state_lines c8S true 45000)).playlists.get
          ⟨j, hj'⟩).resumeTime =
        (if c8S.playing = some ((c8S.playlists.get ⟨j, hj⟩).stamp) then (45000 : Int)
          else (c8S.playlists.get ⟨j, hj⟩).resumeTime)) ∧
    (playlist_load_state c8S (playlist_save_state_lines c8S true 45000)).resumePaused =
      (c8S.resumePaused || (c8S.playing.isSome && true)) :=
  c8_save_load_roundtrip_amended c8S true 45000 (by
    refine ⟨by decide, by decide, by decide, by decide, by decide, ?_, ?_, by decide⟩
    · intro a ha
      have ha2 : (some 1000 : Option Nat) = some a := ha
      injection ha2 with hh
      subst hh
      decide
    · intro gg hgg
      have hg2 : (some 1000 : Option Nat) = some gg := hgg
      injection hg2 with hh
      subst hh
      decide)
